import Mathlib

/-!
Verification development for the mineflayer-replay recorder/player.

This file shallowly embeds the repository's core modules:
* `src/varint.ts` — unsigned LEB128 codec with JavaScript numeric semantics
  (`>>>` coerces to uint32, `<<`/`|` operate on int32 bit patterns);
* `src/chunk.ts` — `serializeData` / `deserializeData` payload normalizer
  (byte blobs as a `{__type: "Buffer", __data: base64}` envelope);
* `src/utils.ts` — `mapToObject`;
* `src/format.ts` — binary container writers (file-backed and in-memory,
  over an abstract msgpack-style codec passed as a parameter, matching the
  spec's "the choice is external" contract) and the reader;
* `src/player.ts` — world-state projection (`trackWorldStatePacket`),
  `seekToTime`, and `setPlaybackSpeed`.

JavaScript values appearing in packet payloads are modelled by `JVal`,
a tree of scalars, byte blobs (`Buffer`s), arrays, and string-keyed
objects. Buffers hold lists of naturals; genuine buffers have all
entries < 256. Files are lists of byte values (`List Nat`).

Exceptions are modelled by `Option`: a function returns `none` exactly
when the JavaScript code would throw.
-/

/-- JavaScript payload values: null, undefined, booleans, (integer)
numbers, strings, byte blobs (Buffers), arrays, and plain objects whose
fields keep insertion order. -/
inductive JVal where
  | null
  | undefv
  | bool (b : Bool)
  | num (n : Int)
  | str (s : String)
  | buf (bytes : List Nat)
  | arr (elems : List JVal)
  | obj (fields : List (String × JVal))

/-- Property lookup on a field list: the value of the first field with
the given key (JavaScript objects cannot carry duplicate keys, so first
match is exact). -/
def lookupField (fields : List (String × JVal)) (key : String) : Option JVal :=
  (fields.find? (fun p => p.1 == key)).map (fun p => p.2)

/-- JavaScript property access `v[key]` as used by the world-state
tracker. Reading a property of `null` or `undefined` throws a
`TypeError` (`none`); on primitives, arrays and buffers the accessed
keys (`entityId`, `entityIds`, `x`, `z`) are absent, so the access
yields `undefined`; on plain objects it is a field lookup defaulting to
`undefined`. -/
def jsGet (v : JVal) (key : String) : Option JVal :=
  match v with
  | .null => none
  | .undefv => none
  | .obj fields => some ((lookupField fields key).getD .undefv)
  | _ => some .undefv

/-- SameValueZero equality as used by JavaScript `Set.add`/`Set.delete`.
Primitives compare by value; composite values (objects, arrays,
buffers) compare by reference, and every composite reaching the entity
set is freshly decoded, hence never reference-equal to a stored one, so
the comparison is `false`. -/
def jvalPrimEq : JVal → JVal → Bool
  | .null, .null => true
  | .undefv, .undefv => true
  | .bool a, .bool b => a == b
  | .num a, .num b => a == b
  | .str a, .str b => a == b
  | _, _ => false

mutual
/-- JavaScript string coercion as used in the template literal
`chunkKey = x + "," + z`. Numbers, strings, booleans, null and
undefined follow JavaScript exactly; arrays join their elements with
commas (null/undefined elements become empty); buffer-to-string is
UTF-8 decoding, approximated here by a direct byte-to-char map (no
claim depends on non-scalar chunk coordinates); objects stringify to
"[object Object]". -/
def jsToString : JVal → String
  | .null => "null"
  | .undefv => "undefined"
  | .bool b => if b then "true" else "false"
  | .num n => toString n
  | .str s => s
  | .buf bytes => String.mk (bytes.map Char.ofNat)
  | .arr l => jsToStringList l
  | .obj _ => "[object Object]"

/-- Array elements joined by commas, as `Array.prototype.toString`. -/
def jsToStringList : List JVal → String
  | [] => ""
  | [v] => jsToStringElem v
  | v :: rest => jsToStringElem v ++ "," ++ jsToStringList rest

/-- One array element in a join: null and undefined render empty. -/
def jsToStringElem : JVal → String
  | .null => ""
  | .undefv => ""
  | v => jsToString v
end

/-- A packet record as stored in the container: absolute timestamp in
milliseconds (a JavaScript number, integral in every reachable state),
symbolic packet name, and payload tree. -/
structure PacketRecord where
  timestamp : Int
  name : String
  data : JVal

/-- The low 32 bits of a JavaScript number holding an integer, i.e. the
`ToUint32` coercion performed by the `>>>` operator and by the bitwise
operators (up to sign reinterpretation). -/
def jsLow32 (v : Int) : Nat := (v % (2 ^ 32 : Int)).toNat

/-- Continuation of `encodeVarint`'s loop after the first iteration:
the running value is already a uint32, so `value & 0x7F` is `v % 128`
and `value >>>= 7` is `v / 128`. The loop runs at most five times for a
uint32 input; the fuel (always ≥ 6 at every call site) only serves
Lean's termination checker and is never exhausted. -/
def encodeVarintAux : Nat → Nat → List Nat
  | 0, v => [v % 128]
  | fuel + 1, v =>
    if 128 ≤ v then (v % 128 + 128) :: encodeVarintAux fuel (v / 128)
    else [v % 128]

/-- The varint encoder of `src/varint.ts`. The first loop test
`value >= 0x80` sees the raw (possibly negative, possibly ≥ 2^32)
number; `value & 0x7F` reads the low seven bits of its 32-bit pattern,
and `value >>>= 7` coerces to uint32 before shifting, after which the
loop continues on genuine uint32 values. -/
def encodeVarint (value : Int) : List Nat :=
  if 128 ≤ value then (jsLow32 value % 128 + 128) :: encodeVarintAux 32 (jsLow32 value / 128)
  else [jsLow32 value % 128]

/-- Decoding loop of `decodeVarint`, walking the bytes at the current
offset. `value` is the 32-bit pattern accumulated by the JavaScript
expression `value |= (byte & 0x7F) << shift` (whose `<<` shifts by
`shift % 32` and truncates to 32 bits, and whose `|` is an int32
bitwise or). Termination byte is one with bit 7 clear. Returns `none`
when the buffer runs out first, i.e. the JavaScript code throws. -/
def decodeVarintAux : List Nat → Nat → Nat → Nat → Option (Nat × Nat)
  | [], _, _, _ => none
  | b :: rest, value, shift, bytesRead =>
    let value' := value ||| (b % 128 * 2 ^ (shift % 32) % 2 ^ 32)
    if b / 128 % 2 = 0 then some (value', bytesRead + 1)
    else decodeVarintAux rest value' (shift + 7) (bytesRead + 1)

/-- Reinterpretation of a 32-bit pattern as a signed int32, which is
how the accumulated `value` is returned to JavaScript. -/
def toInt32 (n : Nat) : Int :=
  if n < 2 ^ 31 then (n : Int) else (n : Int) - 2 ^ 32

/-- The varint decoder of `src/varint.ts`: reads bytes from `offset`
until one has the continuation bit clear, returning the decoded value
(an int32) and the number of bytes consumed, or `none` (a thrown
error) exactly when the buffer is exhausted first. There is no bound
on the number of continuation bytes. -/
def decodeVarint (buffer : List Nat) (offset : Nat) : Option (Int × Nat) :=
  (decodeVarintAux (buffer.drop offset) 0 0 0).map (fun p => (toInt32 p.1, p.2))

/-- The base64 alphabet, in index order. -/
def base64Alphabet : List Char :=
  ['A','B','C','D','E','F','G','H','I','J','K','L','M','N','O','P',
   'Q','R','S','T','U','V','W','X','Y','Z','a','b','c','d','e','f',
   'g','h','i','j','k','l','m','n','o','p','q','r','s','t','u','v',
   'w','x','y','z','0','1','2','3','4','5','6','7','8','9','+','/']

/-- Character for a 6-bit group. -/
def base64Char (n : Nat) : Char := base64Alphabet.getD n '='

/-- Inverse of `base64Char`: index in the alphabet, `none` for
non-alphabet characters (in particular the `=` padding). -/
def base64Val (c : Char) : Option Nat :=
  if c ∈ base64Alphabet then some (base64Alphabet.indexOf c) else none

/-- Base64 rendering of a byte list, three bytes to four characters
with `=` padding, as `Buffer.prototype.toString("base64")`. -/
def base64EncodeList : List Nat → List Char
  | b0 :: b1 :: b2 :: rest =>
    base64Char (b0 / 4) :: base64Char (b0 % 4 * 16 + b1 / 16) ::
    base64Char (b1 % 16 * 4 + b2 / 64) :: base64Char (b2 % 64) :: base64EncodeList rest
  | [b0, b1] => [base64Char (b0 / 4), base64Char (b0 % 4 * 16 + b1 / 16), base64Char (b1 % 16 * 4), '=']
  | [b0] => [base64Char (b0 / 4), base64Char (b0 % 4 * 16), '=', '=']
  | [] => []

/-- Byte reassembly from 6-bit values, four values to three bytes, a
trailing pair or triple yielding one or two bytes. -/
def base64DecodeVals : List Nat → List Nat
  | v0 :: v1 :: v2 :: v3 :: rest =>
    (v0 * 4 + v1 / 16) :: (v1 % 16 * 16 + v2 / 4) :: (v2 % 4 * 64 + v3) :: base64DecodeVals rest
  | [v0, v1, v2] => [v0 * 4 + v1 / 16, v1 % 16 * 16 + v2 / 4]
  | [v0, v1] => [v0 * 4 + v1 / 16]
  | _ => []

def base64Encode (bytes : List Nat) : String := String.mk (base64EncodeList bytes)

/-- Base64 decoding as `Buffer.from(s, "base64")`: non-alphabet
characters (padding included) are ignored, then 6-bit groups are
reassembled. -/
def base64Decode (s : String) : List Nat :=
  base64DecodeVals (s.toList.filterMap base64Val)

mutual
/-- The payload normalizer `serializeData` of `src/chunk.ts`: null and
undefined pass through, a Buffer becomes the envelope object
`{__type: "Buffer", __data: <base64>}` (in that insertion order),
arrays and plain objects recurse, remaining scalars pass through. -/
def serializeData : JVal → JVal
  | .null => .null
  | .undefv => .undefv
  | .buf bytes => .obj [("__type", .str "Buffer"), ("__data", .str (base64Encode bytes))]
  | .arr l => .arr (serializeDataList l)
  | .obj fs => .obj (serializeDataFields fs)
  | .bool b => .bool b
  | .num n => .num n
  | .str s => .str s

/-- Element-wise `obj.map(serializeData)`. -/
def serializeDataList : List JVal → List JVal
  | [] => []
  | v :: rest => serializeData v :: serializeDataList rest

/-- Value-wise recursion over an object's own enumerable fields. -/
def serializeDataFields : List (String × JVal) → List (String × JVal)
  | [] => []
  | (k, v) :: rest => (k, serializeData v) :: serializeDataFields rest
end

/-- Index-keyed fields produced when `deserializeData`'s `for ... in`
loop walks a raw Buffer (an unreachable case in this repository's
write→read pipeline, modelled for totality). -/
def deserializeDataBufFields (i : Nat) : List Nat → List (String × JVal)
  | [] => []
  | b :: rest => (toString i, JVal.num (b : Int)) :: deserializeDataBufFields (i + 1) rest

mutual
/-- The inverse normalizer `deserializeData` of `src/chunk.ts`: null and
undefined pass through; any plain object whose `__type` property is the
string "Buffer" and whose `__data` property is a string is materialized
into a Buffer by base64-decoding `__data`; other arrays and objects
recurse; scalars pass through. A raw Buffer reaching this function is
a non-envelope object whose own enumerable properties are its byte
indices, so the `for ... in` branch turns it into a plain object with
decimal-string keys. -/
def deserializeData : JVal → JVal
  | .null => .null
  | .undefv => .undefv
  | .obj fs =>
    match lookupField fs "__type", lookupField fs "__data" with
    | some (.str "Buffer"), some (.str s) => .buf (base64Decode s)
    | _, _ => .obj (deserializeDataFields fs)
  | .arr l => .arr (deserializeDataList l)
  | .buf bytes => .obj (deserializeDataBufFields 0 bytes)
  | .bool b => .bool b
  | .num n => .num n
  | .str s => .str s

/-- Element-wise `obj.map(deserializeData)`. -/
def deserializeDataList : List JVal → List JVal
  | [] => []
  | v :: rest => deserializeData v :: deserializeDataList rest

/-- Value-wise recursion over an object's fields. -/
def deserializeDataFields : List (String × JVal) → List (String × JVal)
  | [] => []
  | (k, v) :: rest => (k, deserializeData v) :: deserializeDataFields rest
end

mutual
/-- The metadata coercion `mapToObject` of `src/utils.ts`, restricted to
`JVal` trees: scalars and Buffers are preserved, arrays and objects
recurse. (The `Map` and typed-array branches of the source coerce
values that have no `JVal` counterpart — the abstract codec in this
embedding already returns plain objects.) -/
def mapToObject : JVal → JVal
  | .null => .null
  | .undefv => .undefv
  | .bool b => .bool b
  | .num n => .num n
  | .str s => .str s
  | .buf bytes => .buf bytes
  | .arr l => .arr (mapToObjectList l)
  | .obj fs => .obj (mapToObjectFields fs)

/-- Element-wise recursion of `mapToObject` over arrays. -/
def mapToObjectList : List JVal → List JVal
  | [] => []
  | v :: rest => mapToObject v :: mapToObjectList rest

/-- Value-wise recursion of `mapToObject` over object fields. -/
def mapToObjectFields : List (String × JVal) → List (String × JVal)
  | [] => []
  | (k, v) :: rest => (k, mapToObject v) :: mapToObjectFields rest
end

/-- Whether an object field list has the exact envelope shape that
`deserializeData` reserves for Buffers. -/
def isEnvelopeFields (fs : List (String × JVal)) : Bool :=
  match lookupField fs "__type", lookupField fs "__data" with
  | some (.str "Buffer"), some (.str _) => true
  | _, _ => false

mutual
/-- A payload is a genuine JavaScript payload tree fit for the
normalizer roundtrip: every Buffer holds real bytes (< 256) and no
plain-object node carries the reserved envelope shape
`{__type: "Buffer", __data: <string>}`. -/
def payloadOk : JVal → Bool
  | .null => true
  | .undefv => true
  | .bool _ => true
  | .num _ => true
  | .str _ => true
  | .buf bytes => bytes.all (fun b => b < 256)
  | .arr l => payloadOkList l
  | .obj fs => !isEnvelopeFields fs && payloadOkFields fs

/-- All array elements are well-formed payloads. -/
def payloadOkList : List JVal → Bool
  | [] => true
  | v :: rest => payloadOk v && payloadOkList rest

/-- All object field values are well-formed payloads. -/
def payloadOkFields : List (String × JVal) → Bool
  | [] => true
  | (_, v) :: rest => payloadOk v && payloadOkFields rest
end

/-- The eight ASCII bytes of the magic string "MCREPLAY". -/
def MAGIC_BYTES : List Nat := [77, 67, 82, 69, 80, 76, 65, 89]

/-- Container format version. -/
def VERSION : Nat := 1

/-- The `PACKET_IDS` table of `src/format.ts`, in source order. -/
def PACKET_IDS : List (String × Nat) :=
  [("map_chunk", 1), ("map_chunk_bulk", 2), ("block_change", 3),
   ("multi_block_change", 4), ("named_entity_spawn", 5),
   ("spawn_entity_living", 6), ("spawn_entity", 7), ("entity_velocity", 8),
   ("entity_teleport", 9), ("entity_move_look", 10), ("rel_entity_move", 11),
   ("entity_look", 12), ("entity_head_rotation", 13), ("entity_destroy", 14),
   ("chat", 15), ("player_info", 16), ("update_sign", 17), ("explosion", 18),
   ("entity_equipment", 19), ("player_abilities", 20), ("entity_metadata", 21)]

/-- Name-to-id lookup, `PACKET_IDS[record.name]`. -/
def packetIdOf (name : String) : Option Nat := PACKET_IDS.lookup name

/-- Id-to-name lookup, `ID_TO_PACKET[packetId]` (the inverted table). -/
def packetNameOf (id : Nat) : Option String :=
  (PACKET_IDS.find? (fun p => p.2 == id)).map (fun p => p.1)

/-- The four bytes written by `writeUInt32LE`. -/
def u32le (n : Nat) : List Nat :=
  [n % 256, n / 256 % 256, n / 2 ^ 16 % 256, n / 2 ^ 24 % 256]

/-- The value read by `readUInt32LE` from the front of a byte list
(short reads leave unspecified garbage in the real code; modelled as
zero bytes, a case no roundtrip reaches). -/
def readU32le (l : List Nat) : Nat :=
  l.getD 0 0 + l.getD 1 0 * 256 + l.getD 2 0 * 2 ^ 16 + l.getD 3 0 * 2 ^ 24

/-- State of the file-backed `BinaryReplayWriter`: the byte stream
written so far plus the bookkeeping fields of the class. -/
structure BinaryReplayWriter where
  stream : List Nat
  bytesWritten : Nat
  packetCount : Nat
  headerWritten : Bool
  lastTimestamp : Int

/-- A fresh writer on a newly created stream. -/
def BinaryReplayWriter.init : BinaryReplayWriter :=
  { stream := [], bytesWritten := 0, packetCount := 0,
    headerWritten := false, lastTimestamp := 0 }

/-- `writeHeader`: throws if already written, otherwise emits magic and
version and counts 8 + 1 bytes. -/
def BinaryReplayWriter.writeHeader (w : BinaryReplayWriter) : Option BinaryReplayWriter :=
  if w.headerWritten then none
  else some { w with
    stream := w.stream ++ MAGIC_BYTES ++ [VERSION],
    bytesWritten := w.bytesWritten + 8 + 1,
    headerWritten := true }

/-- `writePacket` of the file-backed writer, over an abstract payload
codec `enc` standing for `packer.encode`. Throws when the header is
missing or the name is unknown; `delta` is taken against
`lastTimestamp` with no sign check; `writeUInt32LE` range-checks the
encoded length (a Node `Buffer` API error, `none` here). -/
def BinaryReplayWriter.writePacket (enc : JVal → List Nat) (w : BinaryReplayWriter)
    (record : PacketRecord) : Option BinaryReplayWriter :=
  if !w.headerWritten then none
  else
    match packetIdOf record.name with
    | none => none
    | some packetId =>
      let delta := record.timestamp - w.lastTimestamp
      let timestampBuf := encodeVarint delta
      let dataBuf := enc (serializeData record.data)
      if 2 ^ 32 ≤ dataBuf.length then none
      else some { w with
        stream := w.stream ++ timestampBuf ++ [packetId] ++ u32le dataBuf.length ++ dataBuf,
        bytesWritten := w.bytesWritten + timestampBuf.length + 1 + (4 + dataBuf.length),
        packetCount := w.packetCount + 1,
        lastTimestamp := record.timestamp }

/-- `close(metadata)`: encodes the metadata (no payload normalization
on this path) and appends blob then length suffix. -/
def BinaryReplayWriter.close (enc : JVal → List Nat) (w : BinaryReplayWriter)
    (metadata : JVal) : Option BinaryReplayWriter :=
  let metadataBuf := enc metadata
  if 2 ^ 32 ≤ metadataBuf.length then none
  else some { w with
    stream := w.stream ++ metadataBuf ++ u32le metadataBuf.length,
    bytesWritten := w.bytesWritten + (4 + metadataBuf.length) }

/-- State of `BinaryReplayMemoryWriter`: the collected chunk list, the
chunks handed to the optional `onPacket` callback, and the same
bookkeeping fields. -/
structure BinaryReplayMemoryWriter where
  buffers : List (List Nat)
  emitted : List (List Nat)
  hasCallback : Bool
  bytesWritten : Nat
  packetCount : Nat
  headerWritten : Bool
  lastTimestamp : Int

/-- A fresh in-memory writer, optionally in streaming mode. -/
def BinaryReplayMemoryWriter.init (hasCallback : Bool) : BinaryReplayMemoryWriter :=
  { buffers := [], emitted := [], hasCallback := hasCallback, bytesWritten := 0,
    packetCount := 0, headerWritten := false, lastTimestamp := 0 }

/-- The private `write` helper: collect the chunk, count its bytes,
and in streaming mode forward it to the callback immediately. -/
def BinaryReplayMemoryWriter.write (w : BinaryReplayMemoryWriter)
    (buffer : List Nat) : BinaryReplayMemoryWriter :=
  { w with
    buffers := w.buffers ++ [buffer],
    bytesWritten := w.bytesWritten + buffer.length,
    emitted := if w.hasCallback then w.emitted ++ [buffer] else w.emitted }

/-- `writeHeader` of the in-memory writer: magic and version as two
separate chunks. -/
def BinaryReplayMemoryWriter.writeHeader (w : BinaryReplayMemoryWriter) :
    Option BinaryReplayMemoryWriter :=
  if w.headerWritten then none
  else some { (w.write MAGIC_BYTES).write [VERSION] with headerWritten := true }

/-- `writePacket` of the in-memory writer: same framing as the
file-backed writer, emitted as four chunks. -/
def BinaryReplayMemoryWriter.writePacket (enc : JVal → List Nat)
    (w : BinaryReplayMemoryWriter) (record : PacketRecord) :
    Option BinaryReplayMemoryWriter :=
  if !w.headerWritten then none
  else
    match packetIdOf record.name with
    | none => none
    | some packetId =>
      let delta := record.timestamp - w.lastTimestamp
      let timestampBuf := encodeVarint delta
      let dataBuf := enc (serializeData record.data)
      if 2 ^ 32 ≤ dataBuf.length then none
      else some { ((((w.write timestampBuf).write [packetId]).write
          (u32le dataBuf.length)).write dataBuf) with
        packetCount := w.packetCount + 1,
        lastTimestamp := record.timestamp }

/-- `close(metadata)` of the in-memory writer. -/
def BinaryReplayMemoryWriter.close (enc : JVal → List Nat)
    (w : BinaryReplayMemoryWriter) (metadata : JVal) :
    Option BinaryReplayMemoryWriter :=
  let metadataBuf := enc metadata
  if 2 ^ 32 ≤ metadataBuf.length then none
  else some ((w.write metadataBuf).write (u32le metadataBuf.length))

/-- `getBuffer()`: concatenation of all collected chunks. -/
def BinaryReplayMemoryWriter.getBuffer (w : BinaryReplayMemoryWriter) : List Nat :=
  w.buffers.flatten

/-- One call in a writer's lifetime, used to compare the writer
variants on identical call sequences. -/
inductive WriterOp where
  | header
  | packet (record : PacketRecord)
  | close (metadata : JVal)

/-- Dispatch one call on the file-backed writer. -/
def fileWriterStep (enc : JVal → List Nat) (w : BinaryReplayWriter) :
    WriterOp → Option BinaryReplayWriter
  | .header => w.writeHeader
  | .packet r => w.writePacket enc r
  | .close m => w.close enc m

/-- Dispatch one call on the in-memory writer. -/
def memoryWriterStep (enc : JVal → List Nat) (w : BinaryReplayMemoryWriter) :
    WriterOp → Option BinaryReplayMemoryWriter
  | .header => w.writeHeader
  | .packet r => w.writePacket enc r
  | .close m => w.close enc m

/-- Run a call sequence against the file-backed writer. -/
def runFileWriter (enc : JVal → List Nat) (ops : List WriterOp) :
    Option BinaryReplayWriter :=
  ops.foldlM (fileWriterStep enc) BinaryReplayWriter.init

/-- Run a call sequence against the in-memory writer. -/
def runMemoryWriter (enc : JVal → List Nat) (hasCallback : Bool) (ops : List WriterOp) :
    Option BinaryReplayMemoryWriter :=
  ops.foldlM (memoryWriterStep enc) (BinaryReplayMemoryWriter.init hasCallback)

/-- Simulation relation between the file-backed writer and the
in-memory writer: same bookkeeping, the file stream equals the
concatenated chunks, and in streaming mode the chunks handed to the
callback are exactly the collected chunks. -/
def writersAgree (wf : BinaryReplayWriter) (wm : BinaryReplayMemoryWriter) : Prop :=
  wf.headerWritten = wm.headerWritten ∧ wf.lastTimestamp = wm.lastTimestamp ∧
    wf.stream = wm.buffers.flatten ∧
    wm.emitted = (if wm.hasCallback then wm.buffers else [])

/-- The complete write path used by the recorder: header, every record
in order, then close with the metadata; the result is the file's byte
content. -/
def writeReplay (enc : JVal → List Nat) (records : List PacketRecord)
    (metadata : JVal) : Option (List Nat) :=
  (BinaryReplayWriter.init.writeHeader.bind (fun w =>
    (records.foldlM (fun (w : BinaryReplayWriter) r => w.writePacket enc r) w).bind
      (fun w => w.close enc metadata))).map (fun w => w.stream)

/-- The `readPackets` generator loop of `BinaryReplayReader`, walking
the file from `position` until `dataEnd`. Each iteration reads up to
five bytes for the timestamp delta varint, one packet-id byte, a
`u32le` data length, and that many payload bytes, and accumulates the
absolute timestamp. Unknown packet ids, varint decode failures and
payload decode failures throw (`none`). The fuel is an upper bound on
the number of iterations (each consumes at least six bytes of the
file, so any fuel above the record count is never exhausted). -/
def readPacketsLoop (dec : List Nat → Option JVal) (file : List Nat) (dataEnd : Nat) :
    Nat → Int → Nat → Option (List PacketRecord)
  | 0, _, _ => none
  | fuel + 1, currentTimestamp, position =>
    if dataEnd ≤ position then some []
    else
      match decodeVarint ((file.drop position).take 5) 0 with
      | none => none
      | some (delta, varintBytes) =>
        let pos1 := position + varintBytes
        let ts := currentTimestamp + delta
        let packetId := (file.drop pos1).getD 0 0
        let pos2 := pos1 + 1
        match packetNameOf packetId with
        | none => none
        | some name =>
          let dataLength := readU32le (file.drop pos2)
          let pos3 := pos2 + 4
          let dataBuf := (file.drop pos3).take dataLength
          let pos4 := pos3 + dataLength
          match dec dataBuf with
          | none => none
          | some d =>
            (readPacketsLoop dec file dataEnd fuel ts pos4).map
              (fun rest => { timestamp := ts, name := name,
                             data := deserializeData d } :: rest)

/-- The metadata phase of `BinaryReplayReader.open`: read the length
from the last four bytes, slice the blob ending at EOF−4, decode and
coerce it, and report where the packet stream ends. Reads at negative
offsets (file shorter than the announced metadata) throw. -/
def readMetadataBlock (dec : List Nat → Option JVal) (file : List Nat) :
    Option (JVal × Nat) :=
  let fileSize := file.length
  if fileSize < 4 then none
  else
    let metadataLength := readU32le (file.drop (fileSize - 4))
    if fileSize - 4 < metadataLength then none
    else
      let metadataBuf := (file.drop (fileSize - 4 - metadataLength)).take metadataLength
      match dec metadataBuf with
      | none => none
      | some m => some (mapToObject m, fileSize - 4 - metadataLength)

/-- The full read path `open()` + `getMetadata()` + `readAllSync()`:
check magic and version, locate the metadata block, then parse the
packet stream from offset 9 to the metadata boundary. -/
def readReplay (dec : List Nat → Option JVal) (file : List Nat) :
    Option (List PacketRecord × JVal) :=
  if file.take 8 ≠ MAGIC_BYTES then none
  else if file.getD 8 0 ≠ VERSION then none
  else
    match readMetadataBlock dec file with
    | none => none
    | some (metadata, dataEnd) =>
      (readPacketsLoop dec file dataEnd (file.length + 1) 0 9).map
        (fun packets => (packets, metadata))

/-- The replay metadata record (`ReplayMetadata` of `src/format.ts`);
spawn coordinates are JavaScript numbers and may be fractional. -/
structure ReplayMetadata where
  spawnX : Rat
  spawnY : Rat
  spawnZ : Rat
  startTime : Int
  endTime : Int
  botUsername : String
  mcVersion : String

/-- The world-state projection fields of `ReplayPlayer` (grouped here
in one structure; the source keeps them as four fields of the class):
the recent-packet ring, the per-name `worldState` map, the live entity
id set, and the chunk map. The two maps are JavaScript `Map`s and the
set a JavaScript `Set`, all insertion-ordered, modelled as lists. -/
structure WorldTrack where
  recentPackets : List PacketRecord
  worldState : List (String × List PacketRecord)
  activeEntityIds : List JVal
  chunkMap : List (String × PacketRecord)

/-- The cleared projection. -/
def WorldTrack.empty : WorldTrack :=
  { recentPackets := [], worldState := [], activeEntityIds := [], chunkMap := [] }

/-- JavaScript `Set.add`: append if no member is SameValueZero-equal. -/
def setAdd (s : List JVal) (v : JVal) : List JVal :=
  if s.any (fun x => jvalPrimEq x v) then s else s ++ [v]

/-- JavaScript `Set.delete`: remove the SameValueZero-equal members. -/
def setDelete (s : List JVal) (v : JVal) : List JVal :=
  s.filter (fun x => !jvalPrimEq x v)

/-- JavaScript `Map.set`: overwrite in place if the key exists
(keeping its position), else append. -/
def mapSet (m : List (String × PacketRecord)) (key : String) (v : PacketRecord) :
    List (String × PacketRecord) :=
  if m.any (fun p => p.1 == key) then
    m.map (fun p => if p.1 == key then (p.1, v) else p)
  else m ++ [(key, v)]

/-- The `worldState.get(name).push(packet)` pattern guarded by a
`has`/`set([])` initialisation: append to the keyed list, creating it
on first use. -/
def wsAppend (ws : List (String × List PacketRecord)) (key : String)
    (p : PacketRecord) : List (String × List PacketRecord) :=
  if ws.any (fun e => e.1 == key) then
    ws.map (fun e => if e.1 == key then (e.1, e.2 ++ [p]) else e)
  else ws ++ [(key, [p])]

/-- Strict-equality test against `undefined` (`x !== undefined`). -/
def isUndef : JVal → Bool
  | .undefv => true
  | _ => false

/-- The packet names accumulated in `worldState` for late-joiner sync. -/
def statePacketTypes : List String :=
  ["named_entity_spawn", "spawn_entity_living", "spawn_entity", "player_info"]

/-- `trackWorldStatePacket` of `ReplayPlayer`: entity bookkeeping for
spawn/destroy packets, chunk map and bulk-chunk log, and the per-name
state logs. Property accesses on the packet's data throw on a
null/undefined payload (`none`); the `entityIds && Array.isArray(...)`
guard skips any non-array value. -/
def trackWorldStatePacket (st : WorldTrack) (packet : PacketRecord) :
    Option WorldTrack :=
  let entityStep : Option WorldTrack :=
    if packet.name == "named_entity_spawn" || packet.name == "spawn_entity_living"
        || packet.name == "spawn_entity" then
      match jsGet packet.data "entityId" with
      | none => none
      | some v =>
        if isUndef v then some st
        else some { st with activeEntityIds := setAdd st.activeEntityIds v }
    else if packet.name == "entity_destroy" then
      match jsGet packet.data "entityIds" with
      | none => none
      | some (JVal.arr ids) =>
        some { st with activeEntityIds := ids.foldl setDelete st.activeEntityIds }
      | some _ => some st
    else some st
  entityStep.bind (fun st =>
    let chunkStep : Option WorldTrack :=
      if packet.name == "map_chunk" then
        match jsGet packet.data "x" with
        | none => none
        | some vx =>
          if isUndef vx then some st
          else
            match jsGet packet.data "z" with
            | none => none
            | some vz =>
              if isUndef vz then some st
              else
                let chunkKey := jsToString vx ++ "," ++ jsToString vz
                some { st with chunkMap := mapSet st.chunkMap chunkKey packet }
      else if packet.name == "map_chunk_bulk" then
        some { st with worldState := wsAppend st.worldState "map_chunk_bulk" packet }
      else some st
    chunkStep.map (fun st =>
      if statePacketTypes.contains packet.name then
        { st with worldState := wsAppend st.worldState packet.name packet }
      else st))

/-- `maxRecentPackets`: the ring bound for late-joiner sync. -/
def maxRecentPackets : Nat := 1000

/-- The ring update performed at the top of `replayPacket`: push, then
`shift()` one element off the front when the bound is exceeded. -/
def pushRecent (ring : List PacketRecord) (p : PacketRecord) : List PacketRecord :=
  let ring' := ring ++ [p]
  if maxRecentPackets < ring'.length then ring'.drop 1 else ring'

/-- `replayPacket` restricted to its effect on the projection (the
emission to connected clients is the unmodelled network side): ring
update followed by world-state tracking. -/
def replayPacket (st : WorldTrack) (packet : PacketRecord) : Option WorldTrack :=
  trackWorldStatePacket
    { st with recentPackets := pushRecent st.recentPackets packet } packet

/-- The playback-relevant state of `ReplayPlayer`. The wall-clock
anchor `startRealTime` and the connected-client map are outside the
model; `world` groups the four projection fields. -/
structure PlayerState where
  packets : List PacketRecord
  metadata : Option ReplayMetadata
  playing : Bool
  currentTime : Int
  packetIndex : Nat
  world : WorldTrack

/-- The clamp bound used by `seekToTime`:
`(metadata?.endTime || 0) - (metadata?.startTime || 0)`. -/
def PlayerState.maxTime (ps : PlayerState) : Int :=
  (match ps.metadata with | some m => m.endTime | none => 0) -
    (match ps.metadata with | some m => m.startTime | none => 0)

/-- The rebuild loop of `seekToTime`: scan `packets` from index `i`,
stopping (and reporting the break index) at the first record whose
timestamp exceeds the target, applying every earlier record to the
projection. If the loop runs off the end without breaking, the
returned index is the `newIndex` initialiser `0` — faithfully
reproducing the source, which never assigns `newIndex` in that case. -/
def seekLoop (st : WorldTrack) (target : Int) (i : Nat) :
    List PacketRecord → Option (WorldTrack × Nat)
  | [] => some (st, 0)
  | p :: rest =>
    if target < p.timestamp then some (st, i)
    else
      match trackWorldStatePacket st p with
      | none => none
      | some st' => seekLoop st' target (i + 1) rest

/-- `seekToTime(targetTime)` restricted to its effect on the pure
state: clamp the target into `[0, maxTime]`, reset the projection,
rebuild it from the start of the packet list, and set the cursor and
current time. The pause/resume bracket leaves `playing` unchanged; the
seek event and client resync are outside the model. A throw inside the
rebuild loop propagates (`none`). -/
def seekToTime (ps : PlayerState) (targetTime : Int) : Option PlayerState :=
  let target := max 0 (min ps.maxTime targetTime)
  (seekLoop WorldTrack.empty target 0 ps.packets).map (fun r =>
    { ps with currentTime := target, world := r.1, packetIndex := r.2 })

/-- Events observable from `setPlaybackSpeed` (the playback:pause,
playback:speed and playback:start emissions, with their numeric
arguments). -/
inductive PlaybackEvent where
  | pause (currentTime : Rat)
  | speed (firstArg secondArg : Rat)
  | start (currentTime : Rat)
  deriving DecidableEq

/-- The state touched by `setPlaybackSpeed`. Speeds and times are
JavaScript doubles; the values exercised here are exact in `Rat`
(the clamp constant 0.1 differs from its double rounding by < 2^-55,
which no claim observes). -/
structure PlaybackSpeedState where
  playing : Bool
  currentTime : Rat
  playbackSpeed : Rat

/-- `setPlaybackSpeed(speed)`: pause if playing, clamp the requested
speed into `[0.1, 10]`, emit `playback:speed` with the freshly
assigned `this.playbackSpeed` as first argument and the raw requested
`speed` as second, then resume if it was playing. The wall-clock
re-anchor inside `startPlayback` is outside the model; the net effect
on `playing` is the identity. -/
def setPlaybackSpeed (st : PlaybackSpeedState) (speed : Rat) :
    PlaybackSpeedState × List PlaybackEvent :=
  let wasPlaying := st.playing
  let newSpeed := max (mkRat 1 10) (min 10 speed)
  ({ st with playbackSpeed := newSpeed },
    (if wasPlaying then [PlaybackEvent.pause st.currentTime] else []) ++
      [PlaybackEvent.speed newSpeed speed] ++
      (if wasPlaying then [PlaybackEvent.start st.currentTime] else []))

mutual
/-- A concrete schema-less codec used to instantiate the abstract
payload encoder in witnesses and counterexamples: a simple
tag/length/value rendering of `JVal` trees (its only required property
is that `demoDecode` inverts it on the values exercised). -/
def demoEncode : JVal → List Nat
  | .null => [0]
  | .undefv => [1]
  | .bool b => [2, if b then 1 else 0]
  | .num n => [3, if n < 0 then 1 else 0, n.natAbs]
  | .str s => 4 :: s.length :: s.toList.map Char.toNat
  | .buf bs => 5 :: bs.length :: bs
  | .arr l => 6 :: l.length :: demoEncodeList l
  | .obj fs => 7 :: fs.length :: demoEncodeFields fs

/-- Concatenated encodings of array elements. -/
def demoEncodeList : List JVal → List Nat
  | [] => []
  | v :: rest => demoEncode v ++ demoEncodeList rest

/-- Concatenated encodings of object fields (length-prefixed key, then
value). -/
def demoEncodeFields : List (String × JVal) → List Nat
  | [] => []
  | (k, v) :: rest => k.length :: (k.toList.map Char.toNat ++ (demoEncode v ++ demoEncodeFields rest))
end

mutual
/-- Fuel-indexed decoder for `demoEncode`; returns the decoded value
and the unconsumed remainder. -/
def demoDecodeAux : Nat → List Nat → Option (JVal × List Nat)
  | 0, _ => none
  | _ + 1, 0 :: rest => some (.null, rest)
  | _ + 1, 1 :: rest => some (.undefv, rest)
  | _ + 1, 2 :: b :: rest => some (.bool (b == 1), rest)
  | _ + 1, 3 :: sgn :: m :: rest =>
    some (.num (if sgn == 1 then -(m : Int) else (m : Int)), rest)
  | _ + 1, 4 :: n :: rest =>
    if rest.length < n then none
    else some (.str (String.mk ((rest.take n).map Char.ofNat)), rest.drop n)
  | _ + 1, 5 :: n :: rest =>
    if rest.length < n then none else some (.buf (rest.take n), rest.drop n)
  | fuel + 1, 6 :: n :: rest =>
    (demoDecodeListAux fuel n rest).map (fun r => (.arr r.1, r.2))
  | fuel + 1, 7 :: n :: rest =>
    (demoDecodeFieldsAux fuel n rest).map (fun r => (.obj r.1, r.2))
  | _ + 1, _ => none

/-- Decode `n` consecutive array elements. -/
def demoDecodeListAux : Nat → Nat → List Nat → Option (List JVal × List Nat)
  | 0, _, _ => none
  | _ + 1, 0, l => some ([], l)
  | fuel + 1, n + 1, l =>
    (demoDecodeAux fuel l).bind (fun r =>
      (demoDecodeListAux fuel n r.2).map (fun r' => (r.1 :: r'.1, r'.2)))

/-- Decode `n` consecutive object fields. -/
def demoDecodeFieldsAux : Nat → Nat → List Nat → Option (List (String × JVal) × List Nat)
  | 0, _, _ => none
  | _ + 1, 0, l => some ([], l)
  | fuel + 1, n + 1, kl :: l =>
    if l.length < kl then none
    else
      (demoDecodeAux fuel (l.drop kl)).bind (fun r =>
        (demoDecodeFieldsAux fuel n r.2).map (fun r' =>
          ((String.mk ((l.take kl).map Char.ofNat), r.1) :: r'.1, r'.2)))
  | _ + 1, _ + 1, [] => none
end

/-- Top-level demo decoder: succeeds only on a complete encoding. -/
def demoDecode (l : List Nat) : Option JVal :=
  match demoDecodeAux (l.length + 1) l with
  | some (v, []) => some v
  | _ => none

/-- Well-formed timestamp sequence relative to a starting value: every
delta is non-negative and below `2 ^ 31` (the int32-safe range the
varint pipeline preserves). -/
def deltasOk : Int → List PacketRecord → Bool
  | _, [] => true
  | last, r :: rest =>
    decide (last ≤ r.timestamp) && decide (r.timestamp - last < 2 ^ 31) &&
      deltasOk r.timestamp rest

/-- The bytes `writePacket` appends for one record, given the previous
timestamp. -/
def packetBytes (enc : JVal → List Nat) (last : Int) (r : PacketRecord) : List Nat :=
  encodeVarint (r.timestamp - last) ++ [(packetIdOf r.name).getD 0] ++
    u32le (enc (serializeData r.data)).length ++ enc (serializeData r.data)

/-- The byte stream of a record sequence, threading the timestamp. -/
def packetsBytes (enc : JVal → List Nat) : Int → List PacketRecord → List Nat
  | _, [] => []
  | last, r :: rest => packetBytes enc last r ++ packetsBytes enc r.timestamp rest

/-- Player state used to exhibit the seek clamp: one spawn record at
t = 1500 in a replay whose metadata spans 0..1000 ms. -/
def seekClampState : PlayerState :=
  { packets := [{ timestamp := 1500, name := "named_entity_spawn",
                  data := .obj [("entityId", .num 7)] }],
    metadata := some { spawnX := 0, spawnY := 0, spawnZ := 0, startTime := 0,
                       endTime := 1000, botUsername := "b", mcVersion := "1.8.9" },
    playing := false, currentTime := 0, packetIndex := 0, world := .empty }

/-- Player state used to exhibit the cursor bug: a single chat record
at t = 100 in a replay spanning 0..1000 ms. -/
def seekCursorState : PlayerState :=
  { packets := [{ timestamp := 100, name := "chat", data := .null }],
    metadata := some { spawnX := 0, spawnY := 0, spawnZ := 0, startTime := 0,
                       endTime := 1000, botUsername := "b", mcVersion := "1.8.9" },
    playing := false, currentTime := 0, packetIndex := 0, world := .empty }

/-- Concrete record stream for the container roundtrip scenario. -/
def exampleRecords : List PacketRecord :=
  [{ timestamp := 0, name := "chat", data := .obj [("message", .str "hi")] },
   { timestamp := 1500, name := "block_change",
     data := .obj [("x", .num 1), ("y", .num 2), ("z", .num 3),
                   ("icon", .buf [7, 255, 0])] }]

/-- Concrete metadata value for the container roundtrip scenario. -/
def exampleMetadata : JVal :=
  .obj [("startTime", .num 1000), ("endTime", .num 2500), ("botUsername", .str "b")]

/-- A record whose payload is a plain map that happens to carry the
reserved Buffer envelope shape. -/
def envelopeRecord : PacketRecord :=
  { timestamp := 0, name := "chat",
    data := .obj [("__type", .str "Buffer"), ("__data", .str "")] }

/-- `writersAgree` lifted to the throw-modelling `Option`: both throw,
or both succeed in agreeing states. -/
def writersAgreeO : Option BinaryReplayWriter → Option BinaryReplayMemoryWriter → Prop
  | none, none => True
  | some wf, some wm => writersAgree wf wm
  | _, _ => False

/-- Structural induction principle for `JVal` that presents the nested
lists through membership, which is what the roundtrip proofs need. -/
theorem JVal.inductionOn (P : JVal → Prop)
    (h1 : P .null) (h2 : P .undefv) (h3 : ∀ b, P (.bool b)) (h4 : ∀ n, P (.num n))
    (h5 : ∀ s, P (.str s)) (h6 : ∀ b, P (.buf b))
    (h7 : ∀ l, (∀ v ∈ l, P v) → P (.arr l))
    (h8 : ∀ fs, (∀ p ∈ fs, P p.2) → P (.obj fs)) :
    ∀ v, P v := by
  intro v
  refine JVal.rec (motive_1 := P)
    (motive_2 := fun l => ∀ v ∈ l, P v)
    (motive_3 := fun fs => ∀ p ∈ fs, P p.2)
    (motive_4 := fun p => P p.2)
    h1 h2 h3 h4 h5 h6 h7 h8
    (fun v hv => absurd hv (List.not_mem_nil v))
    (fun hd tl ihh iht v hv => ?_)
    (fun p hp => absurd hp (List.not_mem_nil p))
    (fun hd tl ihh iht p hp => ?_)
    (fun k v ih => ih) v
  · rcases List.mem_cons.mp hv with h | h
    · exact h ▸ ihh
    · exact iht v h
  · rcases List.mem_cons.mp hp with h | h
    · exact h ▸ ihh
    · exact iht p h

/-- Disjoint bitwise or is addition: or-ing a value below `2 ^ s` with
a multiple of `2 ^ s` adds them. -/
theorem lor_disjoint {a s : Nat} (m : Nat) (h : a < 2 ^ s) :
    a ||| m * 2 ^ s = a + m * 2 ^ s := by
  rw [Nat.lor_comm, Nat.mul_comm m (2 ^ s), ← Nat.mul_add_lt_is_or h m]
  ring

/-- Strict monotonicity of multiplication by a power of two. -/
theorem mul_pow_lt_mul_pow {a b : Nat} (s : Nat) (h : a < b) :
    a * 2 ^ s < b * 2 ^ s :=
  (Nat.mul_lt_mul_right (Nat.pos_pow_of_pos s (by norm_num))).mpr h

/-- `jsLow32` is the identity on naturals below `2 ^ 32`. -/
theorem jsLow32_coe {n : Nat} (h : n < 2 ^ 32) : jsLow32 (n : Int) = n := by
  unfold jsLow32
  have h1 : ((n : Int) % (2 ^ 32 : Int)) = ((n % 2 ^ 32 : Nat) : Int) := by
    push_cast
    rfl
  rw [h1, Nat.mod_eq_of_lt h]
  exact Int.toNat_natCast n

/-- A byte with bit 7 clear terminates the decode loop, contributing
its seven payload bits at the current shift. -/
theorem decodeVarintAux_step_done (b shift acc k : Nat) (rest : List Nat)
    (hb : b < 128) (hs : shift < 32) (hlt : b * 2 ^ shift < 2 ^ 32)
    (hacc : acc < 2 ^ shift) :
    decodeVarintAux (b :: rest) acc shift k = some (acc + b * 2 ^ shift, k + 1) := by
  have hdiv : b / 128 = 0 := Nat.div_eq_of_lt hb
  have hmod : b % 128 = b := Nat.mod_eq_of_lt hb
  have hshift : shift % 32 = shift := Nat.mod_eq_of_lt hs
  simp only [decodeVarintAux, hdiv, hmod, hshift, Nat.zero_mod, if_pos rfl, if_true]
  rw [Nat.mod_eq_of_lt hlt, lor_disjoint b hacc]

/-- Correctness of the decode loop on the encode loop's output at any
shift position reachable by the loop (a multiple of seven, at most
28), with an arbitrary byte suffix: the accumulated pattern picks up
exactly `n * 2 ^ shift`. The fuel assumption is satisfied at every
call site. -/
theorem decodeVarintAux_encodeVarintAux (fuel : Nat) :
    ∀ (n shift acc k : Nat) (rest : List Nat),
      n < 2 ^ (7 * fuel + 7) → n < 2 ^ (31 - shift) → shift ≤ 28 → 7 ∣ shift →
      acc < 2 ^ shift →
      decodeVarintAux (encodeVarintAux fuel n ++ rest) acc shift k
        = some (acc + n * 2 ^ shift, k + (encodeVarintAux fuel n).length) := by
  induction fuel with
  | zero =>
    intro n shift acc k rest hfuel hn hs hdvd hacc
    have hb : n < 128 := by simpa using hfuel
    have hsub : 31 - shift + shift = 31 := Nat.sub_add_cancel (by omega)
    have hlt : n * 2 ^ shift < 2 ^ 32 := by
      calc n * 2 ^ shift < 2 ^ (31 - shift) * 2 ^ shift := mul_pow_lt_mul_pow shift hn
        _ = 2 ^ 31 := by rw [← pow_add, hsub]
        _ < 2 ^ 32 := by norm_num
    simp only [encodeVarintAux, Nat.mod_eq_of_lt hb, List.cons_append, List.nil_append,
      List.length_singleton]
    exact decodeVarintAux_step_done n shift acc k rest hb (by omega) hlt hacc
  | succ f ih =>
    intro n shift acc k rest hfuel hn hs hdvd hacc
    by_cases hb : 128 ≤ n
    · -- continuation byte, then recurse on n / 128 at shift + 7
      have hshift21 : shift ≤ 21 := by
        rcases hdvd with ⟨c, rfl⟩
        have h27 : (2 : Nat) ^ 7 ≤ 2 ^ (31 - 7 * c) := le_trans hb (le_of_lt hn)
        have h7 : 7 ≤ 31 - 7 * c := (Nat.pow_le_pow_iff_right (by norm_num : 1 < 2)).mp h27
        omega
      have hsmall : n % 128 * 2 ^ shift < 2 ^ 32 := by
        calc n % 128 * 2 ^ shift < 128 * 2 ^ shift :=
              mul_pow_lt_mul_pow shift (Nat.mod_lt _ (by norm_num))
          _ = 2 ^ (shift + 7) := by rw [pow_add]; ring
          _ ≤ 2 ^ 32 := Nat.pow_le_pow_right (by norm_num) (by omega)
      have hstep : decodeVarintAux ((n % 128 + 128) :: (encodeVarintAux f (n / 128) ++ rest)) acc shift k
          = decodeVarintAux (encodeVarintAux f (n / 128) ++ rest)
              (acc + n % 128 * 2 ^ shift) (shift + 7) (k + 1) := by
        have hb1 : ¬((n % 128 + 128) / 128 % 2 = 0) := by omega
        have hm : (n % 128 + 128) % 128 = n % 128 := by omega
        have hshift : shift % 32 = shift := Nat.mod_eq_of_lt (by omega)
        simp only [decodeVarintAux, hb1, hm, hshift, if_neg, if_false]
        rw [Nat.mod_eq_of_lt hsmall, lor_disjoint (n % 128) hacc]
      have hrec := ih (n / 128) (shift + 7) (acc + n % 128 * 2 ^ shift) (k + 1) rest
        (Nat.div_lt_of_lt_mul (by
          calc n < 2 ^ (7 * (f + 1) + 7) := hfuel
            _ = 128 * 2 ^ (7 * f + 7) := by
                rw [show 7 * (f + 1) + 7 = 7 + (7 * f + 7) by ring, pow_add]
                norm_num))
        (Nat.div_lt_of_lt_mul (by
          calc n < 2 ^ (31 - shift) := hn
            _ = 128 * 2 ^ (31 - (shift + 7)) := by
                rw [show (128 : Nat) = 2 ^ 7 by norm_num, ← pow_add]
                congr 1
                omega))
        (by omega)
        (by rcases hdvd with ⟨c, rfl⟩; exact ⟨c + 1, by ring⟩)
        (by
          have h2 : n % 128 * 2 ^ shift ≤ 127 * 2 ^ shift :=
            Nat.mul_le_mul_right _ (by omega)
          calc acc + n % 128 * 2 ^ shift < 2 ^ shift + 127 * 2 ^ shift := by
                have := hacc
                omega
            _ = 2 ^ (shift + 7) := by rw [pow_add]; ring)
      have henc : encodeVarintAux (f + 1) n = (n % 128 + 128) :: encodeVarintAux f (n / 128) := by
        simp [encodeVarintAux, hb]
      rw [henc, List.cons_append, hstep, hrec]
      have harith : acc + n % 128 * 2 ^ shift + n / 128 * 2 ^ (shift + 7)
          = acc + n * 2 ^ shift := by
        have hdm : 128 * (n / 128) + n % 128 = n := Nat.div_add_mod n 128
        calc acc + n % 128 * 2 ^ shift + n / 128 * 2 ^ (shift + 7)
            = acc + (128 * (n / 128) + n % 128) * 2 ^ shift := by rw [pow_add]; ring
          _ = acc + n * 2 ^ shift := by rw [hdm]
      rw [harith]
      simp only [List.length_cons]
      norm_num
      omega
    · -- below 128: terminal byte
      push_neg at hb
      have hsub : 31 - shift + shift = 31 := Nat.sub_add_cancel (by omega)
      have hlt : n * 2 ^ shift < 2 ^ 32 := by
        calc n * 2 ^ shift < 2 ^ (31 - shift) * 2 ^ shift := mul_pow_lt_mul_pow shift hn
          _ = 2 ^ 31 := by rw [← pow_add, hsub]
          _ < 2 ^ 32 := by norm_num
      have henc : encodeVarintAux (f + 1) n = [n % 128] := by
        simp [encodeVarintAux, Nat.not_le.mpr hb]
      rw [henc, Nat.mod_eq_of_lt hb]
      simp only [List.cons_append, List.nil_append, List.length_singleton]
      exact decodeVarintAux_step_done n shift acc k rest hb (by omega) hlt hacc

/-- Decoding an encoded value below `2 ^ 31` out of a buffer that
continues with arbitrary bytes recovers the value and its encoded
length (the reader relies on this: it hands the decoder a five-byte
window past the varint). -/
theorem decodeVarint_encode_append (d : Nat) (rest : List Nat) (hd : d < 2 ^ 31) :
    decodeVarint (encodeVarint (d : Int) ++ rest) 0
      = some ((d : Int), (encodeVarint (d : Int)).length) := by
  have h32 : d < 2 ^ 32 := lt_trans hd (by norm_num)
  have hlow : jsLow32 (d : Int) = d := jsLow32_coe h32
  have htoi : toInt32 d = (d : Int) := by unfold toInt32; rw [if_pos hd]
  unfold decodeVarint
  rw [List.drop_zero]
  by_cases hb : 128 ≤ d
  · have hbi : (128 : Int) ≤ (d : Int) := by exact_mod_cast hb
    have henc : encodeVarint (d : Int)
        = (d % 128 + 128) :: encodeVarintAux 32 (d / 128) := by
      unfold encodeVarint
      rw [if_pos hbi, hlow]
    rw [henc, List.cons_append]
    have hstep : decodeVarintAux ((d % 128 + 128) :: (encodeVarintAux 32 (d / 128) ++ rest)) 0 0 0
        = decodeVarintAux (encodeVarintAux 32 (d / 128) ++ rest) (d % 128) 7 1 := by
      have hb1 : ¬((d % 128 + 128) / 128 % 2 = 0) := by omega
      have hm : (d % 128 + 128) % 128 = d % 128 := by omega
      simp only [decodeVarintAux, hb1, if_false]
      rw [Nat.zero_mod, pow_zero, Nat.mul_one, hm,
        Nat.mod_eq_of_lt (by omega : d % 128 < 2 ^ 32), Nat.zero_or]
    rw [hstep]
    rw [decodeVarintAux_encodeVarintAux 32 (d / 128) 7 (d % 128) 1 rest
      (Nat.div_lt_of_lt_mul (by
        calc d < 2 ^ 32 := h32
          _ ≤ 128 * 2 ^ (7 * 32 + 7) := by norm_num))
      (Nat.div_lt_of_lt_mul (by
        calc d < 2 ^ 31 := hd
          _ = 128 * 2 ^ (31 - 7) := by norm_num))
      (by norm_num) ⟨1, rfl⟩ (by omega)]
    have hval : d % 128 + d / 128 * 2 ^ 7 = d := by omega
    simp only [hval, List.length_cons]
    simp [htoi]
    omega
  · push_neg at hb
    have henc : encodeVarint (d : Int) = [d % 128] := by
      unfold encodeVarint
      rw [if_neg (by exact_mod_cast Nat.not_le.mpr hb), hlow]
    rw [henc, Nat.mod_eq_of_lt hb, List.cons_append, List.nil_append]
    rw [decodeVarintAux_step_done d 0 0 0 rest hb (by norm_num)
      (by rw [pow_zero, Nat.mul_one]; exact h32) (by norm_num)]
    simp [htoi]

/-- The encode loop emits at most `j + 1` bytes for a value below
`2 ^ (7 * (j + 1))`, for any fuel. -/
theorem encodeVarintAux_length_le (fuel : Nat) :
    ∀ (n j : Nat), n < 2 ^ (7 * (j + 1)) →
      (encodeVarintAux fuel n).length ≤ j + 1 := by
  induction fuel with
  | zero => intro n j _; simp [encodeVarintAux]
  | succ f ih =>
    intro n j hn
    by_cases hb : 128 ≤ n
    · have hj : 1 ≤ j := by
        by_contra hc
        have hj0 : j = 0 := by omega
        rw [hj0] at hn
        norm_num at hn
        omega
      have hrec : (encodeVarintAux f (n / 128)).length ≤ (j - 1) + 1 := by
        apply ih
        apply Nat.div_lt_of_lt_mul
        calc n < 2 ^ (7 * (j + 1)) := hn
          _ = 128 * 2 ^ (7 * ((j - 1) + 1)) := by
              rw [show (128 : Nat) = 2 ^ 7 by norm_num, ← pow_add]
              congr 1
              omega
      simp only [encodeVarintAux, if_pos hb, List.length_cons]
      omega
    · simp [encodeVarintAux, hb]

/-- An encoded delta below `2 ^ 31` occupies at most five bytes, the
window the reader passes to the decoder. -/
theorem encodeVarint_length_le_five (d : Nat) (hd : d < 2 ^ 31) :
    (encodeVarint (d : Int)).length ≤ 5 := by
  have h32 : d < 2 ^ 32 := lt_trans hd (by norm_num)
  have hlow : jsLow32 (d : Int) = d := jsLow32_coe h32
  by_cases hb : 128 ≤ d
  · have hbi : (128 : Int) ≤ (d : Int) := by exact_mod_cast hb
    unfold encodeVarint
    rw [if_pos hbi, hlow, List.length_cons]
    have : (encodeVarintAux 32 (d / 128)).length ≤ 3 + 1 :=
      encodeVarintAux_length_le 32 (d / 128) 3
        (Nat.div_lt_of_lt_mul (by
          calc d < 2 ^ 31 := hd
            _ ≤ 128 * 2 ^ (7 * (3 + 1)) := by norm_num))
    omega
  · unfold encodeVarint
    rw [if_neg (by exact_mod_cast hb)]
    simp

/-- The decode loop fails exactly when every remaining byte has the
continuation bit set (so the buffer is exhausted before a terminator). -/
theorem decodeVarintAux_eq_none_iff :
    ∀ (l : List Nat) (acc shift k : Nat),
      decodeVarintAux l acc shift k = none ↔ ∀ b ∈ l, b / 128 % 2 = 1 := by
  intro l
  induction l with
  | nil => intro acc shift k; simp [decodeVarintAux]
  | cons b rest ih =>
    intro acc shift k
    by_cases hb : b / 128 % 2 = 0
    · simp only [decodeVarintAux, if_pos hb]
      constructor
      · intro h; cases h
      · intro h
        have := h b (List.mem_cons_self b rest)
        omega
    · simp only [decodeVarintAux, if_neg hb, ih, List.mem_cons]
      constructor
      · intro h v hv
        rcases hv with rfl | hv
        · omega
        · exact h v hv
      · intro h v hv
        exact h v (Or.inr hv)

/-- C5 (amended): for every natural `n` below `2 ^ 31`,
`decodeVarint (encodeVarint n) 0` returns value `n` and a byte count
equal to the length of `encodeVarint n`. (For `n ≥ 2 ^ 31` the int32
shift in the decoder wraps the value to a negative number, see the
counterexample.) -/
theorem varint_roundtrip (n : Nat) (h : n < 2 ^ 31) :
    decodeVarint (encodeVarint (n : Int)) 0
      = some ((n : Int), (encodeVarint (n : Int)).length) := by
  have := decodeVarint_encode_append n [] h
  rwa [List.append_nil] at this

/-- Witness for `varint_roundtrip` at `n = 777`. -/
theorem varint_roundtrip_witness :
    decodeVarint (encodeVarint (777 : Int)) 0
      = some ((777 : Int), (encodeVarint (777 : Int)).length) :=
  varint_roundtrip 777 (by norm_num)

/-- C5 counterexample: at `n = 2 ^ 31` the roundtrip fails — the
decoder's int32 accumulator returns `-2 ^ 31`, not `2 ^ 31`. -/
theorem varint_roundtrip_counterexample :
    decodeVarint (encodeVarint ((2 ^ 31 : Nat) : Int)) 0
      ≠ some (((2 ^ 31 : Nat) : Int), (encodeVarint ((2 ^ 31 : Nat) : Int)).length) := by
  decide

/-- C4 (amended): `decodeVarint` fails exactly when the buffer is
exhausted before a byte with the continuation bit clear appears — that
is, every byte from the offset on has bit 7 set (vacuously, when the
offset is at or past the end). There is no ten-byte cap. -/
theorem decodeVarint_fails_iff (buffer : List Nat) (offset : Nat) :
    decodeVarint buffer offset = none
      ↔ ∀ b ∈ buffer.drop offset, b / 128 % 2 = 1 := by
  unfold decodeVarint
  rw [Option.map_eq_none']
  exact decodeVarintAux_eq_none_iff (buffer.drop offset) 0 0 0

/-- C4 counterexample: eleven continuation bytes before the terminator
— more than ten bytes are consumed without termination, yet the
decoder succeeds instead of failing as the claim requires. -/
theorem decodeVarint_long_counterexample :
    decodeVarint (List.replicate 11 128 ++ [0]) 0 = some (0, 12) := by
  decide

/-- C3 (amended): `writePacket` performs no sign check on the delta.
On a record whose timestamp is below the writer's `lastTimestamp` it
succeeds anyway, and the negative delta is encoded as the single lossy
byte `(delta mod 2 ^ 32) mod 128` — no error is raised. -/
theorem writePacket_negative_delta (enc : JVal → List Nat) (w : BinaryReplayWriter)
    (r : PacketRecord) (hheader : w.headerWritten = true)
    (hname : (packetIdOf r.name).isSome = true)
    (hlen : (enc (serializeData r.data)).length < 2 ^ 32)
    (hneg : r.timestamp < w.lastTimestamp) :
    (w.writePacket enc r).isSome = true ∧
      encodeVarint (r.timestamp - w.lastTimestamp)
        = [jsLow32 (r.timestamp - w.lastTimestamp) % 128] := by
  constructor
  · rcases Option.isSome_iff_exists.mp hname with ⟨pid, hpid⟩
    simp only [BinaryReplayWriter.writePacket, hheader, Bool.not_true, Bool.false_eq_true,
      if_false, hpid, if_neg (Nat.not_le.mpr hlen)]
    rfl
  · unfold encodeVarint
    rw [if_neg]
    omega

/-- C3 counterexample: after writing a packet at t = 5, writing one at
t = 3 (delta −2) does not throw — the writer returns normally. -/
theorem writePacket_negative_delta_counterexample :
    ((BinaryReplayWriter.init.writeHeader.bind
        (fun w => w.writePacket demoEncode { timestamp := 5, name := "chat", data := .null })).bind
      (fun w => w.writePacket demoEncode { timestamp := 3, name := "chat", data := .null })).isSome
      = true := rfl

/-- Witness for `writePacket_negative_delta` on a concrete writer
state with `lastTimestamp = 5` and a record at t = 3. -/
theorem writePacket_negative_delta_witness :
    (BinaryReplayWriter.writePacket demoEncode
        { stream := [], bytesWritten := 0, packetCount := 0,
          headerWritten := true, lastTimestamp := 5 }
        { timestamp := 3, name := "chat", data := .null }).isSome = true ∧
      encodeVarint ((3 : Int) - 5) = [jsLow32 ((3 : Int) - 5) % 128] :=
  writePacket_negative_delta demoEncode
    { stream := [], bytesWritten := 0, packetCount := 0,
      headerWritten := true, lastTimestamp := 5 }
    { timestamp := 3, name := "chat", data := .null }
    rfl rfl (by decide) (by decide)

/-- Every alphabet character decodes back to its index. -/
theorem base64Val_base64Char : ∀ x < 64, base64Val (base64Char x) = some x := by
  decide

/-- Padding decodes to nothing. -/
theorem base64Val_pad : base64Val '=' = none := by decide

/-- Reassembling the 6-bit values of an encoded byte list recovers the
bytes. -/
theorem base64_decodeVals_encodeList : ∀ (bytes : List Nat), (∀ b ∈ bytes, b < 256) →
    base64DecodeVals ((base64EncodeList bytes).filterMap base64Val) = bytes
  | [], _ => by simp [base64EncodeList, base64DecodeVals]
  | [b0], h => by
    have hb0 : b0 < 256 := h b0 (by simp)
    have h0 := base64Val_base64Char (b0 / 4) (by omega)
    have h1 := base64Val_base64Char (b0 % 4 * 16) (by omega)
    simp only [base64EncodeList, List.filterMap_cons, h0, h1, base64Val_pad,
      List.filterMap_nil, base64DecodeVals]
    congr 1
    omega
  | [b0, b1], h => by
    have hb0 : b0 < 256 := h b0 (by simp)
    have hb1 : b1 < 256 := h b1 (by simp)
    have h0 := base64Val_base64Char (b0 / 4) (by omega)
    have h1 := base64Val_base64Char (b0 % 4 * 16 + b1 / 16) (by omega)
    have h2 := base64Val_base64Char (b1 % 16 * 4) (by omega)
    simp only [base64EncodeList, List.filterMap_cons, h0, h1, h2, base64Val_pad,
      List.filterMap_nil, base64DecodeVals]
    congr 1
    · omega
    · congr 1
      omega
  | b0 :: b1 :: b2 :: rest, h => by
    have hb0 : b0 < 256 := h b0 (by simp)
    have hb1 : b1 < 256 := h b1 (by simp)
    have hb2 : b2 < 256 := h b2 (by simp)
    have ih := base64_decodeVals_encodeList rest (fun b hb => h b (by simp [hb]))
    have h0 := base64Val_base64Char (b0 / 4) (by omega)
    have h1 := base64Val_base64Char (b0 % 4 * 16 + b1 / 16) (by omega)
    have h2 := base64Val_base64Char (b1 % 16 * 4 + b2 / 64) (by omega)
    have h3 := base64Val_base64Char (b2 % 64) (by omega)
    simp only [base64EncodeList, List.filterMap_cons, h0, h1, h2, h3, base64DecodeVals, ih]
    have e0 : b0 / 4 * 4 + (b0 % 4 * 16 + b1 / 16) / 16 = b0 := by omega
    have e1 : (b0 % 4 * 16 + b1 / 16) % 16 * 16 + (b1 % 16 * 4 + b2 / 64) / 4 = b1 := by omega
    have e2 : (b1 % 16 * 4 + b2 / 64) % 4 * 64 + b2 % 64 = b2 := by omega
    rw [e0, e1, e2]

/-- Base64 roundtrip on genuine byte lists. -/
theorem base64_roundtrip (bytes : List Nat) (h : ∀ b ∈ bytes, b < 256) :
    base64Decode (base64Encode bytes) = bytes := by
  unfold base64Decode base64Encode
  rw [show (String.mk (base64EncodeList bytes)).toList = base64EncodeList bytes from rfl]
  exact base64_decodeVals_encodeList bytes h

/-- Serialization commutes with field lookup. -/
theorem lookupField_serializeDataFields (fs : List (String × JVal)) (k : String) :
    lookupField (serializeDataFields fs) k = (lookupField fs k).map serializeData := by
  induction fs with
  | nil => rfl
  | cons p rest ih =>
    rcases p with ⟨k', v⟩
    by_cases hk : k' == k
    · simp [serializeDataFields, lookupField, List.find?, hk]
    · have hk' : (k' == k) = false := by simpa using hk
      simp only [serializeDataFields, lookupField, List.find?, hk'] at *
      exact ih

/-- Only a string serializes to a string. -/
theorem serializeData_eq_str {v : JVal} {s : String} (h : serializeData v = .str s) :
    v = .str s := by
  cases v <;> simp_all [serializeData]

/-- Serialization does not create the envelope shape on an object that
does not already carry it. -/
theorem not_envelope_serialize (fs : List (String × JVal))
    (h : isEnvelopeFields fs = false) :
    isEnvelopeFields (serializeDataFields fs) = false := by
  unfold isEnvelopeFields
  split
  · rename_i s heq1 heq2
    exfalso
    rw [lookupField_serializeDataFields] at heq1 heq2
    rcases Option.map_eq_some'.mp heq1 with ⟨v1, hv1, hs1⟩
    rcases Option.map_eq_some'.mp heq2 with ⟨v2, hv2, hs2⟩
    rw [serializeData_eq_str hs1] at hv1
    rw [serializeData_eq_str hs2] at hv2
    unfold isEnvelopeFields at h
    rw [hv1, hv2] at h
    simp at h
  · rfl

/-- On a non-envelope object, `deserializeData` recurses field-wise. -/
theorem deserializeData_obj_not_envelope (sfs : List (String × JVal))
    (h : isEnvelopeFields sfs = false) :
    deserializeData (.obj sfs) = .obj (deserializeDataFields sfs) := by
  unfold deserializeData
  split
  · rename_i s heq1 heq2
    exfalso
    unfold isEnvelopeFields at h
    rw [heq1, heq2] at h
    simp at h
  · rfl

/-- Helper: the payload normalizer roundtrips every tree satisfying
`payloadOk` (genuine bytes, no reserved envelope shape). -/
theorem deserializeData_serializeData (v : JVal) (h : payloadOk v = true) :
    deserializeData (serializeData v) = v := by
  revert h
  refine JVal.inductionOn
    (fun v => payloadOk v = true → deserializeData (serializeData v) = v)
    (fun _ => rfl) (fun _ => rfl) (fun _ _ => rfl) (fun _ _ => rfl) (fun _ _ => rfl)
    ?_ ?_ ?_ v
  · -- buffers: envelope, then base64 roundtrip
    intro bytes h
    have hb : ∀ b ∈ bytes, b < 256 := by
      intro b hb
      have := List.all_eq_true.mp h b hb
      simpa using this
    show deserializeData (.obj [("__type", .str "Buffer"),
      ("__data", .str (base64Encode bytes))]) = .buf bytes
    unfold deserializeData
    rw [show lookupField [("__type", JVal.str "Buffer"),
          ("__data", JVal.str (base64Encode bytes))] "__type" = some (.str "Buffer") from rfl]
    rw [show lookupField [("__type", JVal.str "Buffer"),
          ("__data", JVal.str (base64Encode bytes))] "__data"
        = some (.str (base64Encode bytes)) from rfl]
    show JVal.buf (base64Decode (base64Encode bytes)) = JVal.buf bytes
    rw [base64_roundtrip bytes hb]
  · -- arrays: element-wise
    intro l ih h
    show JVal.arr (deserializeDataList (serializeDataList l)) = .arr l
    congr 1
    induction l with
    | nil => rfl
    | cons v rest ihl =>
      have hv : payloadOk v = true ∧ payloadOkList rest = true := by
        have := h
        simp only [payloadOk, payloadOkList, Bool.and_eq_true] at this
        exact this
      simp only [serializeDataList, deserializeDataList]
      rw [ih v (List.mem_cons_self v rest) hv.1,
        ihl (fun w hw => ih w (List.mem_cons_of_mem v hw)) hv.2]
  · -- objects: non-envelope, field-wise
    intro fs ih h
    have henv : isEnvelopeFields fs = false ∧ payloadOkFields fs = true := by
      have := h
      simp only [payloadOk, Bool.and_eq_true, Bool.not_eq_true'] at this
      exact this
    show deserializeData (.obj (serializeDataFields fs)) = .obj fs
    rw [deserializeData_obj_not_envelope _ (not_envelope_serialize fs henv.1)]
    congr 1
    have hfs := henv.2
    clear h henv
    induction fs with
    | nil => rfl
    | cons p rest ihf =>
      rcases p with ⟨k, v⟩
      have hv : payloadOk v = true ∧ payloadOkFields rest = true := by
        simp only [payloadOkFields, Bool.and_eq_true] at hfs
        exact hfs
      simp only [serializeDataFields, deserializeDataFields]
      rw [ih (k, v) (List.mem_cons_self (k, v) rest) hv.1,
        ihf (fun w hw => ih w (List.mem_cons_of_mem (k, v) hw)) hv.2]

/-- C6 (amended): the payload normalizer roundtrips every payload tree
whose byte blobs hold genuine bytes (< 256) and which contains no
plain-map node of the reserved envelope shape
`{__type: "Buffer", __data: <string>}` — structurally equal including
byte-blob identity. (A payload carrying the envelope shape as ordinary
data is materialized into a Buffer on decode, see the counterexample.) -/
theorem serializeData_roundtrip (v : JVal) (h : payloadOk v = true) :
    deserializeData (serializeData v) = v :=
  deserializeData_serializeData v h

/-- Witness for `serializeData_roundtrip` on a payload mixing a byte
blob, an array, scalars and a nested map. -/
theorem serializeData_roundtrip_witness :
    deserializeData (serializeData (.obj [("img", .buf [1, 2, 255]),
        ("tags", .arr [.str "a", .num 3, .null]),
        ("nested", .obj [("ok", .bool true)])]))
      = .obj [("img", .buf [1, 2, 255]),
        ("tags", .arr [.str "a", .num 3, .null]),
        ("nested", .obj [("ok", .bool true)])] :=
  serializeData_roundtrip _ (by decide)

/-- C6 counterexample: a plain map that happens to carry the envelope
shape is not a fixed point of the roundtrip — decode materializes it
into a byte blob. -/
theorem serializeData_roundtrip_counterexample :
    deserializeData (serializeData (.obj [("__type", .str "Buffer"), ("__data", .str "")]))
      ≠ .obj [("__type", .str "Buffer"), ("__data", .str "")] := by
  intro hcontra
  rw [show deserializeData (serializeData
      (.obj [("__type", JVal.str "Buffer"), ("__data", JVal.str "")]))
      = JVal.buf [] from rfl] at hcontra
  exact JVal.noConfusion hcontra

/-- The metadata coercion is the identity on `JVal` trees. -/
theorem mapToObject_id (v : JVal) : mapToObject v = v := by
  refine JVal.inductionOn (fun v => mapToObject v = v)
    rfl rfl (fun _ => rfl) (fun _ => rfl) (fun _ => rfl) (fun _ => rfl) ?_ ?_ v
  · intro l ih
    show JVal.arr (mapToObjectList l) = .arr l
    congr 1
    induction l with
    | nil => rfl
    | cons v rest ihl =>
      simp only [mapToObjectList]
      rw [ih v (List.mem_cons_self v rest),
        ihl (fun w hw => ih w (List.mem_cons_of_mem v hw))]
  · intro fs ih
    show JVal.obj (mapToObjectFields fs) = .obj fs
    congr 1
    induction fs with
    | nil => rfl
    | cons p rest ihf =>
      rcases p with ⟨k, v⟩
      simp only [mapToObjectFields]
      rw [ih (k, v) (List.mem_cons_self (k, v) rest),
        ihf (fun w hw => ih w (List.mem_cons_of_mem (k, v) hw))]

/-- The two writer variants simulate each other step by step: from
agreeing states, one call either throws in both or succeeds in both
with agreeing results. -/
theorem writersAgree_step (enc : JVal → List Nat) (op : WriterOp)
    (wf : BinaryReplayWriter) (wm : BinaryReplayMemoryWriter)
    (h : writersAgree wf wm) :
    writersAgreeO (fileWriterStep enc wf op) (memoryWriterStep enc wm op) := by
  obtain ⟨hh, ht, hs, he⟩ := h
  cases op with
  | header =>
    by_cases hw : wm.headerWritten
    · simp [fileWriterStep, memoryWriterStep, BinaryReplayWriter.writeHeader,
        BinaryReplayMemoryWriter.writeHeader, hh, hw, writersAgreeO]
    · simp only [fileWriterStep, memoryWriterStep, BinaryReplayWriter.writeHeader,
        BinaryReplayMemoryWriter.writeHeader, hh, hw, if_false, Bool.false_eq_true,
        writersAgreeO]
      refine ⟨rfl, ht, ?_, ?_⟩
      · simp [BinaryReplayMemoryWriter.write, hs]
      · simp only [BinaryReplayMemoryWriter.write, he]
        by_cases hcb : wm.hasCallback <;> simp [hcb]
  | packet r =>
    by_cases hw : wm.headerWritten
    · rcases hid : packetIdOf r.name with _ | pid
      · simp [fileWriterStep, memoryWriterStep, BinaryReplayWriter.writePacket,
          BinaryReplayMemoryWriter.writePacket, hh, hw, hid, writersAgreeO]
      · by_cases hlen : 2 ^ 32 ≤ (enc (serializeData r.data)).length
        · simp only [fileWriterStep, memoryWriterStep, BinaryReplayWriter.writePacket,
            BinaryReplayMemoryWriter.writePacket, hh, hw, hid, Bool.not_true,
            Bool.false_eq_true, if_false, if_pos hlen, writersAgreeO]
        · simp only [fileWriterStep, memoryWriterStep, BinaryReplayWriter.writePacket,
            BinaryReplayMemoryWriter.writePacket, hh, hw, hid, Bool.not_true,
            Bool.false_eq_true, if_false, if_neg hlen, writersAgreeO, ht]
          refine ⟨?_, rfl, ?_, ?_⟩
          · simp [BinaryReplayMemoryWriter.write, hw]
          · simp [BinaryReplayMemoryWriter.write, hs, ht]
          · simp only [BinaryReplayMemoryWriter.write, he]
            by_cases hcb : wm.hasCallback <;> simp [hcb]
    · simp [fileWriterStep, memoryWriterStep, BinaryReplayWriter.writePacket,
        BinaryReplayMemoryWriter.writePacket, hh, hw, writersAgreeO]
  | close m =>
    by_cases hlen : 2 ^ 32 ≤ (enc m).length
    · simp only [fileWriterStep, memoryWriterStep, BinaryReplayWriter.close,
        BinaryReplayMemoryWriter.close, if_pos hlen, writersAgreeO]
    · simp only [fileWriterStep, memoryWriterStep, BinaryReplayWriter.close,
        BinaryReplayMemoryWriter.close, if_neg hlen, writersAgreeO]
      refine ⟨hh, ht, ?_, ?_⟩
      · simp [BinaryReplayMemoryWriter.write, hs]
      · simp only [BinaryReplayMemoryWriter.write, he]
        by_cases hcb : wm.hasCallback <;> simp [hcb]

/-- Fresh writers agree. -/
theorem writersAgree_init (cb : Bool) :
    writersAgree BinaryReplayWriter.init (BinaryReplayMemoryWriter.init cb) := by
  refine ⟨rfl, rfl, rfl, ?_⟩
  cases cb <;> rfl

/-- The simulation transfers along any call sequence. -/
theorem writersAgree_run (enc : JVal → List Nat) (ops : List WriterOp) :
    ∀ (wf : BinaryReplayWriter) (wm : BinaryReplayMemoryWriter), writersAgree wf wm →
      writersAgreeO (ops.foldlM (fileWriterStep enc) wf)
        (ops.foldlM (memoryWriterStep enc) wm) := by
  induction ops with
  | nil =>
    intro wf wm h
    simpa [writersAgreeO] using h
  | cons op rest ih =>
    intro wf wm h
    rw [List.foldlM_cons, List.foldlM_cons]
    have hstep := writersAgree_step enc op wf wm h
    rcases hf : fileWriterStep enc wf op with _ | wf' <;>
      rcases hm : memoryWriterStep enc wm op with _ | wm' <;>
      rw [hf, hm] at hstep
    · simp [writersAgreeO]
    · exact absurd hstep (by simp [writersAgreeO])
    · exact absurd hstep (by simp [writersAgreeO])
    · simpa using ih wf' wm' hstep

/-- A successful in-memory writer call never changes the callback
mode. -/
theorem memoryWriterStep_hasCallback (enc : JVal → List Nat) (op : WriterOp)
    (wm wm' : BinaryReplayMemoryWriter) (h : memoryWriterStep enc wm op = some wm') :
    wm'.hasCallback = wm.hasCallback := by
  cases op with
  | header =>
    simp only [memoryWriterStep, BinaryReplayMemoryWriter.writeHeader] at h
    split at h
    · cases h
    · cases h
      rfl
  | packet r =>
    simp only [memoryWriterStep, BinaryReplayMemoryWriter.writePacket] at h
    split at h
    · cases h
    · split at h
      · cases h
      · split at h
        · cases h
        · cases h
          rfl
  | close m =>
    simp only [memoryWriterStep, BinaryReplayMemoryWriter.close] at h
    split at h
    · cases h
    · cases h
      rfl

/-- The callback mode survives any successful call sequence. -/
theorem memoryWriterRun_hasCallback (enc : JVal → List Nat) (ops : List WriterOp) :
    ∀ (wm wm' : BinaryReplayMemoryWriter),
      ops.foldlM (memoryWriterStep enc) wm = some wm' →
      wm'.hasCallback = wm.hasCallback := by
  induction ops with
  | nil =>
    intro wm wm' h
    simp only [List.foldlM_nil] at h
    cases h
    rfl
  | cons op rest ih =>
    intro wm wm' h
    rw [List.foldlM_cons] at h
    rcases hm : memoryWriterStep enc wm op with _ | wmid
    · rw [hm] at h
      cases h
    · rw [hm] at h
      simp only [Option.bind_eq_bind, Option.some_bind] at h
      rw [ih wmid wm' h, memoryWriterStep_hasCallback enc op wm wmid hm]

/-- C7: on any identical call sequence with identical inputs and the
same payload codec, the file-backed writer and the in-memory writer
produce byte-identical output (the file stream equals `getBuffer`),
and in streaming mode the chunks handed to the callback concatenate to
exactly that same output. Thrown calls are thrown identically by both. -/
theorem writers_byte_identical (enc : JVal → List Nat) (cb : Bool) (ops : List WriterOp) :
    (runFileWriter enc ops).map (fun w => w.stream)
      = (runMemoryWriter enc cb ops).map (fun w => w.getBuffer)
    ∧ (runMemoryWriter enc true ops).map (fun w => w.emitted.flatten)
      = (runMemoryWriter enc true ops).map (fun w => w.getBuffer) := by
  constructor
  · have h := writersAgree_run enc ops BinaryReplayWriter.init
      (BinaryReplayMemoryWriter.init cb) (writersAgree_init cb)
    unfold runFileWriter runMemoryWriter
    rcases hf : ops.foldlM (fileWriterStep enc) BinaryReplayWriter.init with _ | wf' <;>
      rcases hm : ops.foldlM (memoryWriterStep enc) (BinaryReplayMemoryWriter.init cb) with _ | wm' <;>
      rw [hf, hm] at h
    · rfl
    · exact absurd h (by simp [writersAgreeO])
    · exact absurd h (by simp [writersAgreeO])
    · simpa [BinaryReplayMemoryWriter.getBuffer] using h.2.2.1
  · have h := writersAgree_run enc ops BinaryReplayWriter.init
      (BinaryReplayMemoryWriter.init true) (writersAgree_init true)
    unfold runMemoryWriter
    rcases hm : ops.foldlM (memoryWriterStep enc) (BinaryReplayMemoryWriter.init true) with _ | wm'
    · rfl
    · have hcb : wm'.hasCallback = true :=
        memoryWriterRun_hasCallback enc ops _ wm' hm
      rcases hf : ops.foldlM (fileWriterStep enc) BinaryReplayWriter.init with _ | wf' <;>
        rw [hf, hm] at h
      · exact absurd h (by simp [writersAgreeO])
      · have he := h.2.2.2
        rw [hcb, if_pos rfl] at he
        simp [BinaryReplayMemoryWriter.getBuffer, he]

/-- Property access is total away from null and undefined. -/
theorem jsGet_total (v : JVal) (k : String) (hnull : v ≠ .null) (hundef : v ≠ .undefv) :
    ∃ w, jsGet v k = some w := by
  cases v with
  | null => exact absurd rfl hnull
  | undefv => exact absurd rfl hundef
  | bool b => exact ⟨.undefv, rfl⟩
  | num n => exact ⟨.undefv, rfl⟩
  | str s => exact ⟨.undefv, rfl⟩
  | buf b => exact ⟨.undefv, rfl⟩
  | arr l => exact ⟨.undefv, rfl⟩
  | obj fs => exact ⟨_, rfl⟩

/-- On a non-null, non-undefined payload the tracker never throws. -/
theorem trackWorldStatePacket_isSome (st : WorldTrack) (r : PacketRecord)
    (hnull : r.data ≠ JVal.null) (hundef : r.data ≠ JVal.undefv) :
    (trackWorldStatePacket st r).isSome = true := by
  obtain ⟨w1, hw1⟩ := jsGet_total r.data "entityId" hnull hundef
  obtain ⟨w2, hw2⟩ := jsGet_total r.data "entityIds" hnull hundef
  obtain ⟨wx, hwx⟩ := jsGet_total r.data "x" hnull hundef
  obtain ⟨wz, hwz⟩ := jsGet_total r.data "z" hnull hundef
  simp only [trackWorldStatePacket, hw1, hw2, hwx, hwz]
  repeat' split
  all_goals simp_all

/-- The loop of `seekToTime` computes, on its projection component,
the effectful fold of the tracker over the timestamp-filtered packet
list, provided timestamps are sorted (the loop breaks at the first
late record, the filter would keep scanning). -/
theorem seekLoop_world (t : Int) :
    ∀ (l : List PacketRecord) (st : WorldTrack) (i : Nat),
      l.Pairwise (fun a b => a.timestamp ≤ b.timestamp) →
      (seekLoop st t i l).map (fun r => r.1)
        = (l.filter (fun p => decide (p.timestamp ≤ t))).foldlM trackWorldStatePacket st := by
  intro l
  induction l with
  | nil => intro st i _; rfl
  | cons p rest ih =>
    intro st i hp
    rcases List.pairwise_cons.mp hp with ⟨hhead, htail⟩
    by_cases hts : t < p.timestamp
    · have hfilter : rest.filter (fun p => decide (p.timestamp ≤ t)) = [] := by
        apply List.filter_eq_nil_iff.mpr
        intro q hq
        have := hhead q hq
        simp only [decide_eq_true_eq]
        omega
      simp only [seekLoop, if_pos hts, List.filter_cons,
        show decide (p.timestamp ≤ t) = false by simpa using hts, hfilter]
      rfl
    · push_neg at hts
      simp only [seekLoop, if_neg (by omega : ¬t < p.timestamp), List.filter_cons,
        show decide (p.timestamp ≤ t) = true by simpa using hts, eq_self_iff_true,
        if_true, List.foldlM_cons]
      rcases htrack : trackWorldStatePacket st p with _ | st'
      · simp
      · simpa using ih st' (i + 1) htail

/-- C1 (amended): for a loaded packet list with non-decreasing
timestamps and a target time within `[0, endTime − startTime]`,
`seekToTime` leaves the projection — chunk map, bulk-chunk log,
per-name logs, entity-id set, and the (cleared, never repopulated
during seek) recent ring — exactly equal to the result of applying the
tracker, in order, to precisely the records with timestamp ≤ t
starting from the empty projection; a throw during rebuild propagates
on both sides. (Target times outside the metadata range are clamped
first, see the counterexample.) -/
theorem seekToTime_projection (ps : PlayerState) (t : Int)
    (hsorted : ps.packets.Pairwise (fun a b => a.timestamp ≤ b.timestamp))
    (h0 : 0 ≤ t) (hmax : t ≤ ps.maxTime) :
    (seekToTime ps t).map (fun s => s.world)
      = (ps.packets.filter (fun p => decide (p.timestamp ≤ t))).foldlM
          trackWorldStatePacket WorldTrack.empty := by
  have h := seekLoop_world t ps.packets WorldTrack.empty 0 hsorted
  simp only [seekToTime, min_eq_right hmax, max_eq_right h0, Option.map_map]
  rcases hs : seekLoop WorldTrack.empty t 0 ps.packets with _ | r <;>
      rw [hs] at h
  · simpa using h
  · simpa using h

/-- Player state for the witness: one spawn record at t = 100 in a
0..1000 ms replay, sought to t = 500. -/
theorem seekToTime_projection_witness :
    (seekToTime
        { packets := [{ timestamp := 100, name := "named_entity_spawn",
                        data := .obj [("entityId", .num 42)] }],
          metadata := some { spawnX := 0, spawnY := 0, spawnZ := 0, startTime := 0,
                             endTime := 1000, botUsername := "b", mcVersion := "1.8.9" },
          playing := false, currentTime := 0, packetIndex := 0, world := .empty }
        500).map (fun s => s.world)
      = (({ packets := [{ timestamp := 100, name := "named_entity_spawn",
                          data := .obj [("entityId", .num 42)] }],
            metadata := some { spawnX := 0, spawnY := 0, spawnZ := 0, startTime := 0,
                               endTime := 1000, botUsername := "b", mcVersion := "1.8.9" },
            playing := false, currentTime := 0, packetIndex := 0,
            world := .empty } : PlayerState).packets.filter
          (fun p => decide (p.timestamp ≤ 500))).foldlM
          trackWorldStatePacket WorldTrack.empty :=
  seekToTime_projection _ 500 (by simp) (by norm_num) (by decide)

/-- C1 counterexample: with the replay metadata spanning 0..1000 ms
and a spawn record at t = 1500, seeking to t = 2000 clamps the target
to 1000 and applies nothing, while the claim demands that the record
(timestamp 1500 ≤ 2000) be applied: the entity-id sets differ. -/
theorem seekToTime_projection_counterexample :
    (seekToTime seekClampState 2000).map (fun s => s.world.activeEntityIds)
      ≠ ((seekClampState.packets.filter (fun p => decide (p.timestamp ≤ 2000))).foldlM
          trackWorldStatePacket WorldTrack.empty).map (fun w => w.activeEntityIds) := by
  intro hcontra
  rw [show (seekToTime seekClampState 2000).map (fun s => s.world.activeEntityIds)
      = some [] from rfl] at hcontra
  rw [show ((seekClampState.packets.filter (fun p => decide (p.timestamp ≤ 2000))).foldlM
        trackWorldStatePacket WorldTrack.empty).map (fun w => w.activeEntityIds)
      = some [JVal.num 7] from rfl] at hcontra
  injection hcontra with h
  exact List.noConfusion h

/-- C8: the failing input for the seek cursor. With a single record at
t = 100 and a seek to t = 200 (inside the metadata range, so no
clamping), every record satisfies timestamp ≤ 200, the loop never
breaks, and `packetIndex` is left at the `newIndex` initialiser 0 —
whereas the claim (and the spec's scan description) requires the
number of packets, here 1, the index one past the applied prefix. -/
theorem seekToTime_cursor_bug :
    (seekToTime seekCursorState 200).map (fun s => s.packetIndex) = some 0
    ∧ (seekCursorState.packets.takeWhile (fun p => decide (p.timestamp ≤ 200))).length = 1 :=
  ⟨rfl, rfl⟩

/-- C9: the failing input for the speed event. With previous speed 1
and `setPlaybackSpeed(100)`, the code emits `playback:speed` with
arguments (10, 100) — the freshly clamped speed and the raw requested
speed — not (old, new clamped) = (1, 10) as the claim and the
`ReplayPlayerEvents` interface (`oldSpeed`, `newSpeed`) require. -/
theorem setPlaybackSpeed_event_bug :
    (setPlaybackSpeed { playing := false, currentTime := 0, playbackSpeed := 1 } 100).2
      = [PlaybackEvent.speed 10 100]
    ∧ PlaybackEvent.speed 10 100 ≠ PlaybackEvent.speed 1 10 := by
  constructor
  · decide
  · decide

/-- C10 (amended): on every record whose payload is neither null nor
undefined the tracker is total, a spawn-family record whose data lacks
an `entityId` field is still appended to the per-name log while the
entity-id set is untouched, and an `entity_destroy` whose data lacks
an `entityIds` field removes nothing (the projection is untouched).
(A null or undefined payload makes the property accesses throw, see
the counterexample.) -/
theorem trackWorldStatePacket_total (st : WorldTrack) (r : PacketRecord)
    (hnull : r.data ≠ JVal.null) (hundef : r.data ≠ JVal.undefv) :
    (trackWorldStatePacket st r).isSome = true
    ∧ ((r.name = "named_entity_spawn" ∨ r.name = "spawn_entity_living"
          ∨ r.name = "spawn_entity") →
        jsGet r.data "entityId" = some JVal.undefv →
        trackWorldStatePacket st r
          = some { st with worldState := wsAppend st.worldState r.name r })
    ∧ (r.name = "entity_destroy" → jsGet r.data "entityIds" = some JVal.undefv →
        trackWorldStatePacket st r = some st) := by
  refine ⟨trackWorldStatePacket_isSome st r hnull hundef, ?_, ?_⟩
  · intro hname hent
    rcases hname with h | h | h <;>
      simp [trackWorldStatePacket, h, hent, isUndef, statePacketTypes]
  · intro hname hent
    simp [trackWorldStatePacket, hname, hent, isUndef, statePacketTypes]

/-- Witness for `trackWorldStatePacket_total` on a spawn record with
an empty object payload. -/
theorem trackWorldStatePacket_total_witness :
    (trackWorldStatePacket WorldTrack.empty
        { timestamp := 0, name := "named_entity_spawn", data := .obj [] }).isSome = true
    ∧ ((({ timestamp := 0, name := "named_entity_spawn",
           data := .obj [] } : PacketRecord).name = "named_entity_spawn"
          ∨ ({ timestamp := 0, name := "named_entity_spawn",
               data := .obj [] } : PacketRecord).name = "spawn_entity_living"
          ∨ ({ timestamp := 0, name := "named_entity_spawn",
               data := .obj [] } : PacketRecord).name = "spawn_entity") →
        jsGet (JVal.obj []) "entityId" = some JVal.undefv →
        trackWorldStatePacket WorldTrack.empty
            { timestamp := 0, name := "named_entity_spawn", data := .obj [] }
          = some { WorldTrack.empty with
              worldState := wsAppend WorldTrack.empty.worldState "named_entity_spawn"
                { timestamp := 0, name := "named_entity_spawn", data := .obj [] } })
    ∧ (({ timestamp := 0, name := "named_entity_spawn",
          data := .obj [] } : PacketRecord).name = "entity_destroy" →
        jsGet (JVal.obj []) "entityIds" = some JVal.undefv →
        trackWorldStatePacket WorldTrack.empty
            { timestamp := 0, name := "named_entity_spawn", data := .obj [] }
          = some WorldTrack.empty) :=
  trackWorldStatePacket_total WorldTrack.empty
    { timestamp := 0, name := "named_entity_spawn", data := .obj [] }
    (fun h => JVal.noConfusion h) (fun h => JVal.noConfusion h)

/-- C10 counterexample: a spawn record with a null payload makes the
tracker throw (the `packet.data.entityId` access raises a TypeError),
so the apply step is not total on arbitrary record payloads. -/
theorem trackWorldStatePacket_null_counterexample :
    trackWorldStatePacket WorldTrack.empty
      { timestamp := 0, name := "named_entity_spawn", data := JVal.null } = none := rfl

/-- The varint encoder always emits at least one byte. -/
theorem encodeVarint_length_pos (v : Int) : 1 ≤ (encodeVarint v).length := by
  unfold encodeVarint
  split <;> simp

/-- `readUInt32LE` inverts `writeUInt32LE` at the front of a longer
buffer. -/
theorem readU32le_u32le (n : Nat) (l : List Nat) (h : n < 2 ^ 32) :
    readU32le (u32le n ++ l) = n := by
  simp only [u32le, readU32le, List.cons_append, List.nil_append, List.getD_eq_getElem?_getD,
    List.getElem?_cons_zero, List.getElem?_cons_succ, Option.getD_some]
  omega

/-- The inverted packet-id table recovers the name the writer looked
up. -/
theorem packetNameOf_packetIdOf {name : String} {id : Nat}
    (h : packetIdOf name = some id) : packetNameOf id = some name := by
  have hmem : (name, id) ∈ PACKET_IDS := by
    rcases List.lookup_eq_some_iff.mp h with ⟨l1, l2, heq, _⟩
    rw [heq]
    exact List.mem_append.mpr (Or.inr (List.mem_cons_self _ _))
  have hall : ∀ p ∈ PACKET_IDS, packetNameOf p.2 = some p.1 := by decide
  exact hall (name, id) hmem

/-- Each record contributes at least one byte to the packet stream. -/
theorem packetsBytes_length_ge (enc : JVal → List Nat) :
    ∀ (records : List PacketRecord) (last : Int),
      records.length ≤ (packetsBytes enc last records).length := by
  intro records
  induction records with
  | nil => intro last; simp [packetsBytes]
  | cons r rest ih =>
    intro last
    have h1 := encodeVarint_length_pos (r.timestamp - last)
    have h2 := ih r.timestamp
    simp only [packetsBytes, packetBytes, List.length_append, List.length_cons]
    simp only [List.length_append] at *
    omega

/-- After a successful `writeHeader`, folding `writePacket` over
well-formed records succeeds and appends exactly the canonical packet
stream. -/
theorem foldWritePackets (enc : JVal → List Nat) :
    ∀ (records : List PacketRecord) (w : BinaryReplayWriter),
      w.headerWritten = true →
      (∀ r ∈ records, (packetIdOf r.name).isSome = true) →
      (∀ r ∈ records, (enc (serializeData r.data)).length < 2 ^ 32) →
      ∃ w', records.foldlM (fun (w : BinaryReplayWriter) r => w.writePacket enc r) w = some w'
        ∧ w'.stream = w.stream ++ packetsBytes enc w.lastTimestamp records
        ∧ w'.headerWritten = true := by
  intro records
  induction records with
  | nil =>
    intro w hw _ _
    exact ⟨w, by simp, by simp [packetsBytes], hw⟩
  | cons r rest ih =>
    intro w hw hnames hlens
    rcases Option.isSome_iff_exists.mp (hnames r (List.mem_cons_self r rest)) with ⟨pid, hpid⟩
    have hlen := hlens r (List.mem_cons_self r rest)
    have hstep : w.writePacket enc r = some
        { stream := w.stream ++ encodeVarint (r.timestamp - w.lastTimestamp) ++ [pid] ++
            u32le (enc (serializeData r.data)).length ++ enc (serializeData r.data),
          bytesWritten := w.bytesWritten + (encodeVarint (r.timestamp - w.lastTimestamp)).length
            + 1 + (4 + (enc (serializeData r.data)).length),
          packetCount := w.packetCount + 1,
          headerWritten := w.headerWritten,
          lastTimestamp := r.timestamp } := by
      simp only [BinaryReplayWriter.writePacket, hw, Bool.not_true, Bool.false_eq_true,
        if_false, hpid]
      rw [if_neg (Nat.not_le.mpr hlen)]
    obtain ⟨w', hfold, hstream, hw'⟩ := ih
      { stream := w.stream ++ encodeVarint (r.timestamp - w.lastTimestamp) ++ [pid] ++
          u32le (enc (serializeData r.data)).length ++ enc (serializeData r.data),
        bytesWritten := w.bytesWritten + (encodeVarint (r.timestamp - w.lastTimestamp)).length
          + 1 + (4 + (enc (serializeData r.data)).length),
        packetCount := w.packetCount + 1,
        headerWritten := w.headerWritten,
        lastTimestamp := r.timestamp }
      hw (fun q hq => hnames q (List.mem_cons_of_mem r hq))
      (fun q hq => hlens q (List.mem_cons_of_mem r hq))
    refine ⟨w', ?_, ?_, hw'⟩
    · rw [List.foldlM_cons, hstep]
      simpa using hfold
    · rw [hstream]
      simp only [packetsBytes, packetBytes, hpid, Option.getD_some]
      simp [List.append_assoc]

/-- The full write path produces the canonical file layout. -/
theorem writeReplay_stream (enc : JVal → List Nat) (records : List PacketRecord)
    (meta : JVal)
    (hnames : ∀ r ∈ records, (packetIdOf r.name).isSome = true)
    (hlens : ∀ r ∈ records, (enc (serializeData r.data)).length < 2 ^ 32)
    (hmlen : (enc meta).length < 2 ^ 32) :
    writeReplay enc records meta
      = some (MAGIC_BYTES ++ [VERSION] ++ packetsBytes enc 0 records
          ++ enc meta ++ u32le (enc meta).length) := by
  have hheader : BinaryReplayWriter.init.writeHeader = some
      { stream := MAGIC_BYTES ++ [VERSION], bytesWritten := 9, packetCount := 0,
        headerWritten := true, lastTimestamp := 0 } := by
    simp [BinaryReplayWriter.init, BinaryReplayWriter.writeHeader]
  rcases foldWritePackets enc records
      { stream := MAGIC_BYTES ++ [VERSION], bytesWritten := 9, packetCount := 0,
        headerWritten := true, lastTimestamp := 0 }
      rfl hnames hlens with ⟨w', hfold, hstream, _⟩
  have hclose : w'.close enc meta = some { w' with
      stream := w'.stream ++ enc meta ++ u32le (enc meta).length,
      bytesWritten := w'.bytesWritten + (4 + (enc meta).length) } := by
    simp only [BinaryReplayWriter.close]
    rw [if_neg (Nat.not_le.mpr hmlen)]
  unfold writeReplay
  rw [hheader]
  simp only [Option.bind_eq_bind, Option.some_bind]
  rw [hfold]
  simp only [Option.some_bind, hclose, Option.map_some]
  rw [hstream]
  simp [List.append_assoc]


set_option maxHeartbeats 1000000 in
/-- Helper: the packet-reading loop exactly inverts the byte stream
`packetsBytes` laid down by the writer, for any packet list with
non-negative deltas below `2 ^ 31`, known packet names, envelope-free
payloads, and a codec that roundtrips each payload within the `u32le`
length bound — independent of surrounding bytes and starting offset. -/
theorem readPacketsLoop_correct (dec : List Nat → Option JVal) (enc : JVal → List Nat) :
    ∀ (records : List PacketRecord) (fuel : Nat) (last : Int) (pre post : List Nat),
      records.length < fuel →
      deltasOk last records = true →
      (∀ r ∈ records, (packetIdOf r.name).isSome = true) →
      (∀ r ∈ records, (enc (serializeData r.data)).length < 2 ^ 32) →
      (∀ r ∈ records, dec (enc (serializeData r.data)) = some (serializeData r.data)) →
      (∀ r ∈ records, payloadOk r.data = true) →
      readPacketsLoop dec (pre ++ (packetsBytes enc last records ++ post))
          (pre.length + (packetsBytes enc last records).length)
          fuel last pre.length
        = some records := by
  intro records
  induction records with
  | nil =>
    intro fuel last pre post hfuel _ _ _ _ _
    cases fuel with
    | zero => omega
    | succ f => simp [readPacketsLoop, packetsBytes]
  | cons r rest ih =>
    intro fuel last pre post hfuel hdeltas hnames hlens hdec hok
    cases fuel with
    | zero => simp at hfuel
    | succ f =>
    simp only [deltasOk, Bool.and_eq_true, decide_eq_true_eq] at hdeltas
    obtain ⟨⟨hd1, hd2⟩, hd3⟩ := hdeltas
    rcases Option.isSome_iff_exists.mp (hnames r (List.mem_cons_self r rest)) with ⟨pid, hpid⟩
    have hlen := hlens r (List.mem_cons_self r rest)
    have hδ : (((r.timestamp - last).toNat : Nat) : Int) = r.timestamp - last :=
      Int.toNat_of_nonneg (by omega)
    have hδ31 : (r.timestamp - last).toNat < 2 ^ 31 := by omega
    have heΔ : encodeVarint (r.timestamp - last)
        = encodeVarint (((r.timestamp - last).toNat : Nat) : Int) := by rw [hδ]
    have hle5 : (encodeVarint (r.timestamp - last)).length ≤ 5 := by
      rw [heΔ]; exact encodeVarint_length_le_five _ hδ31
    have hpos1 : 1 ≤ (encodeVarint (r.timestamp - last)).length := encodeVarint_length_pos _
    have hpb : packetsBytes enc last (r :: rest)
        = encodeVarint (r.timestamp - last) ++ ([pid] ++ (u32le (enc (serializeData r.data)).length
            ++ (enc (serializeData r.data) ++ packetsBytes enc r.timestamp rest))) := by
      simp [packetsBytes, packetBytes, hpid, List.append_assoc]
    rw [hpb]
    have hdecode : ∀ (tail : List Nat),
        decodeVarint (encodeVarint (r.timestamp - last) ++ tail) 0
          = some ((((r.timestamp - last).toNat : Nat) : Int),
              (encodeVarint (r.timestamp - last)).length) := by
      intro tail
      rw [heΔ]
      exact decodeVarint_encode_append _ tail hδ31
    simp only [List.append_assoc]
    simp only [readPacketsLoop]
    rw [if_neg (by
      simp only [List.length_append, List.length_cons, List.length_nil]
      omega)]
    rw [List.drop_left' rfl]
    rw [List.take_append_eq_append_take, List.take_of_length_le hle5, hdecode]
    simp only []
    have hdrop1 : (pre ++ (encodeVarint (r.timestamp - last)
          ++ ([pid] ++ (u32le (enc (serializeData r.data)).length
            ++ (enc (serializeData r.data) ++ (packetsBytes enc r.timestamp rest ++ post)))))).drop
          (pre.length + (encodeVarint (r.timestamp - last)).length)
        = [pid] ++ (u32le (enc (serializeData r.data)).length
            ++ (enc (serializeData r.data) ++ (packetsBytes enc r.timestamp rest ++ post))) := by
      rw [show pre ++ (encodeVarint (r.timestamp - last)
            ++ ([pid] ++ (u32le (enc (serializeData r.data)).length
              ++ (enc (serializeData r.data) ++ (packetsBytes enc r.timestamp rest ++ post)))))
          = (pre ++ encodeVarint (r.timestamp - last))
            ++ ([pid] ++ (u32le (enc (serializeData r.data)).length
              ++ (enc (serializeData r.data) ++ (packetsBytes enc r.timestamp rest ++ post))))
        from by simp [List.append_assoc]]
      exact List.drop_left' (by simp)
    rw [hdrop1]
    simp only [List.singleton_append, List.getD_cons_zero]
    rw [packetNameOf_packetIdOf hpid]
    simp only []
    have hdrop2 : (pre ++ (encodeVarint (r.timestamp - last)
          ++ pid :: (u32le (enc (serializeData r.data)).length
            ++ (enc (serializeData r.data) ++ (packetsBytes enc r.timestamp rest ++ post))))).drop
          (pre.length + (encodeVarint (r.timestamp - last)).length + 1)
        = u32le (enc (serializeData r.data)).length
            ++ (enc (serializeData r.data) ++ (packetsBytes enc r.timestamp rest ++ post)) := by
      rw [show pre ++ (encodeVarint (r.timestamp - last)
            ++ pid :: (u32le (enc (serializeData r.data)).length
              ++ (enc (serializeData r.data) ++ (packetsBytes enc r.timestamp rest ++ post))))
          = (pre ++ encodeVarint (r.timestamp - last) ++ [pid])
            ++ (u32le (enc (serializeData r.data)).length
              ++ (enc (serializeData r.data) ++ (packetsBytes enc r.timestamp rest ++ post)))
        from by simp [List.append_assoc]]
      refine List.drop_left' ?_
      simp
      omega
    rw [hdrop2, readU32le_u32le _ _ hlen]
    have hdrop3 : (pre ++ (encodeVarint (r.timestamp - last)
          ++ pid :: (u32le (enc (serializeData r.data)).length
            ++ (enc (serializeData r.data) ++ (packetsBytes enc r.timestamp rest ++ post))))).drop
          (pre.length + (encodeVarint (r.timestamp - last)).length + 1 + 4)
        = enc (serializeData r.data) ++ (packetsBytes enc r.timestamp rest ++ post) := by
      rw [show pre ++ (encodeVarint (r.timestamp - last)
            ++ pid :: (u32le (enc (serializeData r.data)).length
              ++ (enc (serializeData r.data) ++ (packetsBytes enc r.timestamp rest ++ post))))
          = (pre ++ encodeVarint (r.timestamp - last) ++ [pid]
              ++ u32le (enc (serializeData r.data)).length)
            ++ (enc (serializeData r.data) ++ (packetsBytes enc r.timestamp rest ++ post))
        from by simp [List.append_assoc]]
      refine List.drop_left' ?_
      simp [u32le]
      omega
    rw [hdrop3, List.take_left' rfl, hdec r (List.mem_cons_self r rest)]
    simp only []
    have hts : last + (((r.timestamp - last).toNat : Nat) : Int) = r.timestamp := by omega
    simp only [hts, deserializeData_serializeData r.data (hok r (List.mem_cons_self r rest))]
    have hIH := ih f r.timestamp
      (pre ++ encodeVarint (r.timestamp - last) ++ [pid]
        ++ u32le (enc (serializeData r.data)).length ++ enc (serializeData r.data)) post
      (by simp only [List.length_cons] at hfuel; omega) hd3
      (fun q hq => hnames q (List.mem_cons_of_mem r hq))
      (fun q hq => hlens q (List.mem_cons_of_mem r hq))
      (fun q hq => hdec q (List.mem_cons_of_mem r hq))
      (fun q hq => hok q (List.mem_cons_of_mem r hq))
    rw [show (pre ++ encodeVarint (r.timestamp - last) ++ [pid]
          ++ u32le (enc (serializeData r.data)).length ++ enc (serializeData r.data))
          ++ (packetsBytes enc r.timestamp rest ++ post)
        = pre ++ (encodeVarint (r.timestamp - last)
          ++ pid :: (u32le (enc (serializeData r.data)).length
            ++ (enc (serializeData r.data) ++ (packetsBytes enc r.timestamp rest ++ post))))
      from by simp [List.append_assoc]] at hIH
    rw [show (pre ++ encodeVarint (r.timestamp - last) ++ [pid]
          ++ u32le (enc (serializeData r.data)).length ++ enc (serializeData r.data)).length
        = pre.length + (encodeVarint (r.timestamp - last)).length + 1 + 4
          + (enc (serializeData r.data)).length
      from by simp [u32le]; omega] at hIH
    rw [show pre.length + (encodeVarint (r.timestamp - last)
          ++ pid :: (u32le (enc (serializeData r.data)).length
            ++ (enc (serializeData r.data) ++ packetsBytes enc r.timestamp rest))).length
        = pre.length + (encodeVarint (r.timestamp - last)).length + 1 + 4
          + (enc (serializeData r.data)).length + (packetsBytes enc r.timestamp rest).length
      from by simp [u32le]; omega]
    rw [hIH]
    rfl


set_option maxHeartbeats 1000000 in
/-- C2 (amended): the container roundtrips: for every packet list with
non-decreasing timestamps whose deltas stay below `2 ^ 31`, packet
names in the id table, payloads that are envelope-free trees of
genuine bytes, and a codec that roundtrips each serialized payload and
the metadata within the `u32le` length bound, writing a replay file
and reading it back returns exactly the original records (timestamps,
names, payloads) and metadata. (A payload carrying the reserved
envelope shape as plain data comes back as a Buffer instead, see the
counterexample.) -/
theorem replay_roundtrip (enc : JVal → List Nat) (dec : List Nat → Option JVal)
    (records : List PacketRecord) (meta : JVal)
    (hnames : ∀ r ∈ records, (packetIdOf r.name).isSome = true)
    (hlens : ∀ r ∈ records, (enc (serializeData r.data)).length < 2 ^ 32)
    (hdec : ∀ r ∈ records, dec (enc (serializeData r.data)) = some (serializeData r.data))
    (hok : ∀ r ∈ records, payloadOk r.data = true)
    (hdeltas : deltasOk 0 records = true)
    (hmeta : dec (enc meta) = some meta)
    (hmlen : (enc meta).length < 2 ^ 32) :
    ∃ file, writeReplay enc records meta = some file
      ∧ readReplay dec file = some (records, meta) := by
  refine ⟨_, writeReplay_stream enc records meta hnames hlens hmlen, ?_⟩
  rw [show MAGIC_BYTES ++ [VERSION] ++ packetsBytes enc 0 records
      ++ enc meta ++ u32le (enc meta).length
      = (MAGIC_BYTES ++ [VERSION]) ++ (packetsBytes enc 0 records
        ++ (enc meta ++ u32le (enc meta).length)) from by simp [List.append_assoc]]
  have hflen : ((MAGIC_BYTES ++ [VERSION]) ++ (packetsBytes enc 0 records
      ++ (enc meta ++ u32le (enc meta).length))).length
      = 13 + (packetsBytes enc 0 records).length + (enc meta).length := by
    simp [MAGIC_BYTES, u32le]
    omega
  have htake : ((MAGIC_BYTES ++ [VERSION]) ++ (packetsBytes enc 0 records
      ++ (enc meta ++ u32le (enc meta).length))).take 8 = MAGIC_BYTES := by
    rw [show (MAGIC_BYTES ++ [VERSION]) ++ (packetsBytes enc 0 records
        ++ (enc meta ++ u32le (enc meta).length))
        = MAGIC_BYTES ++ ([VERSION] ++ (packetsBytes enc 0 records
          ++ (enc meta ++ u32le (enc meta).length))) from by simp [List.append_assoc]]
    exact List.take_left' rfl
  have hver : ((MAGIC_BYTES ++ [VERSION]) ++ (packetsBytes enc 0 records
      ++ (enc meta ++ u32le (enc meta).length))).getD 8 0 = VERSION := by
    rw [show (MAGIC_BYTES ++ [VERSION]) ++ (packetsBytes enc 0 records
        ++ (enc meta ++ u32le (enc meta).length))
        = MAGIC_BYTES ++ (VERSION :: (packetsBytes enc 0 records
          ++ (enc meta ++ u32le (enc meta).length))) from by simp [List.append_assoc]]
    rw [List.getD_eq_getElem?_getD, List.getElem?_append_right (by simp [MAGIC_BYTES])]
    simp [MAGIC_BYTES]
  have hmb : readMetadataBlock dec ((MAGIC_BYTES ++ [VERSION]) ++ (packetsBytes enc 0 records
      ++ (enc meta ++ u32le (enc meta).length)))
      = some (meta, 9 + (packetsBytes enc 0 records).length) := by
    simp only [readMetadataBlock]
    rw [if_neg (by omega)]
    have hdropA : ((MAGIC_BYTES ++ [VERSION]) ++ (packetsBytes enc 0 records
        ++ (enc meta ++ u32le (enc meta).length))).drop
          (((MAGIC_BYTES ++ [VERSION]) ++ (packetsBytes enc 0 records
            ++ (enc meta ++ u32le (enc meta).length))).length - 4)
        = u32le (enc meta).length := by
      rw [show (MAGIC_BYTES ++ [VERSION]) ++ (packetsBytes enc 0 records
          ++ (enc meta ++ u32le (enc meta).length))
          = (MAGIC_BYTES ++ [VERSION] ++ packetsBytes enc 0 records ++ enc meta)
            ++ u32le (enc meta).length from by simp [List.append_assoc]]
      refine List.drop_left' ?_
      simp [MAGIC_BYTES, u32le]
      omega
    have hru : readU32le (u32le (enc meta).length) = (enc meta).length := by
      rw [show u32le (enc meta).length = u32le (enc meta).length ++ []
        from (List.append_nil _).symm]
      exact readU32le_u32le _ _ hmlen
    rw [hdropA, hru]
    rw [if_neg (by omega)]
    have hdropB : (((MAGIC_BYTES ++ [VERSION]) ++ (packetsBytes enc 0 records
        ++ (enc meta ++ u32le (enc meta).length))).drop
          (((MAGIC_BYTES ++ [VERSION]) ++ (packetsBytes enc 0 records
            ++ (enc meta ++ u32le (enc meta).length))).length - 4
              - (enc meta).length)).take (enc meta).length = enc meta := by
      rw [show (MAGIC_BYTES ++ [VERSION]) ++ (packetsBytes enc 0 records
          ++ (enc meta ++ u32le (enc meta).length))
          = (MAGIC_BYTES ++ [VERSION] ++ packetsBytes enc 0 records)
            ++ (enc meta ++ u32le (enc meta).length) from by simp [List.append_assoc]]
      rw [List.drop_left' (by simp [MAGIC_BYTES, u32le]; omega)]
      exact List.take_left' rfl
    rw [hdropB, hmeta]
    simp only [mapToObject_id]
    rw [show ((MAGIC_BYTES ++ [VERSION]) ++ (packetsBytes enc 0 records
        ++ (enc meta ++ u32le (enc meta).length))).length - 4 - (enc meta).length
      = 9 + (packetsBytes enc 0 records).length from by omega]
  unfold readReplay
  rw [if_neg (fun h => h htake), if_neg (fun h => h hver), hmb]
  simp only []
  have hloop := readPacketsLoop_correct dec enc records
    (((MAGIC_BYTES ++ [VERSION]) ++ (packetsBytes enc 0 records
      ++ (enc meta ++ u32le (enc meta).length))).length + 1)
    0 (MAGIC_BYTES ++ [VERSION]) (enc meta ++ u32le (enc meta).length)
    (by
      have := packetsBytes_length_ge enc records 0
      omega)
    hdeltas hnames hlens hdec hok
  rw [show (MAGIC_BYTES ++ [VERSION]).length = 9 from rfl] at hloop
  rw [show (MAGIC_BYTES ++ [VERSION]) ++ (packetsBytes enc 0 records
      ++ ((enc meta ++ u32le (enc meta).length)))
    = (MAGIC_BYTES ++ [VERSION]) ++ (packetsBytes enc 0 records
      ++ (enc meta ++ u32le (enc meta).length)) from rfl] at hloop
  rw [hloop]
  rfl


/-- Witness for `replay_roundtrip`: the concrete demo codec, two
records and a metadata map roundtrip through the full file pipeline. -/
theorem replay_roundtrip_witness :
    ∃ file, writeReplay demoEncode exampleRecords exampleMetadata = some file
      ∧ readReplay demoDecode file = some (exampleRecords, exampleMetadata) :=
  replay_roundtrip demoEncode demoDecode exampleRecords exampleMetadata
    (by intro r hr; fin_cases hr <;> rfl)
    (by intro r hr; fin_cases hr <;> decide)
    (by intro r hr; fin_cases hr <;> rfl)
    (by intro r hr; fin_cases hr <;> rfl)
    (by decide)
    (by rfl)
    (by decide)


/-- C2 counterexample: a record whose payload is a plain map of the
reserved envelope shape does not roundtrip — it is materialized into a
byte blob by the reader. -/
theorem replay_roundtrip_counterexample :
    (writeReplay demoEncode [envelopeRecord] exampleMetadata).bind (readReplay demoDecode)
      ≠ some ([envelopeRecord], exampleMetadata) := by
  intro hcontra
  rw [show (writeReplay demoEncode [envelopeRecord] exampleMetadata).bind (readReplay demoDecode)
      = some ([{ timestamp := 0, name := "chat", data := JVal.buf [] }], exampleMetadata)
    from rfl] at hcontra
  have hdata : JVal.buf [] = envelopeRecord.data := by
    injection hcontra with h1
    injection h1 with h2 h3
    injection h2 with h4 h5
    exact congrArg PacketRecord.data h4
  exact JVal.noConfusion hdata
